import Mathlib

/-! The GSP ABI checker (`nouveau/gsp-abi-checker.cpp`).

A shallow embedding of the extraction-and-policy engine of the GCC plugin
that generates the GSP ABI stability checks, together with proofs of its
specified properties.

Conventions of the embedding:

* a C string (`const char*`, `std::string` built from one) is a `String`
  holding the characters before the terminating NUL;
* `size_t` values are natural numbers below `2^64`, `long` values are integers;
* the file-scope configuration variables (`wanted`, `wanted_prefix`,
  `flexible`, `extendible_enums`) are passed explicitly as a `Globals` record;
* every `fprintf(f, ...)` call is recorded as one `Line`, whose `text` is what
  the format string writes; diagnostics written with `WARN` go to a separate
  list of strings.
-/

namespace GspAbi

set_option maxRecDepth 10000

/-! ## Machine integers -/

/-- The value of `~0` once converted to `size_t`: all 64 bits set. -/
def SIZE_MAX : Nat := 18446744073709551615

/-- Conversion of a `HOST_WIDE_INT` (or any integer) to `size_t`. -/
def to_size_t (v : Int) : Nat := (v % 18446744073709551616).toNat

/-- Reinterpretation of a 64-bit unsigned value as a `long`. -/
def to_long (v : Nat) : Int :=
  if v % 18446744073709551616 < 9223372036854775808 then
    ((v % 18446744073709551616 : Nat) : Int)
  else
    ((v % 18446744073709551616 : Nat) : Int) - 18446744073709551616

/-- What `%ld` writes for a `size_t` argument: the value read as a `long`. -/
def fmt_ld (v : Nat) : String := toString (to_long v)

/-! ## Configuration -/

/-- The file-scope configuration variables of the plugin. -/
structure Globals where
  /-- The contents of `static std::set<std::string> wanted`. -/
  wanted : List String
  /-- The contents of `static std::vector<std::string> wanted_prefix`. -/
  wanted_prefix : List String
  /-- The contents of `static std::set<std::string> flexible`. -/
  flexible : List String
  /-- The contents of `static std::set<std::string> extendible_enums`. -/
  extendible_enums : List String

/-- The initial value of `flexible` in the source. -/
def flexible : List String :=
  [ "GspStaticConfigInfo",
    "GspSystemInfo",
    "rpc_alloc_memory_v13_01",
    "rpc_free_v03_00",
    "rpc_gsp_rm_alloc_v03_00",
    "rpc_gsp_rm_control_v03_00",
    "rpc_os_error_log_v17_00",
    "rpc_post_event_v17_00",
    "rpc_rc_triggered_v17_02",
    "rpc_run_cpu_sequencer_v17_00",
    "rpc_unloading_guest_driver_v1F_07",
    "rpc_update_bar_pde_v15_00" ]

/-- The initial value of `extendible_enums` in the source. -/
def extendible_enums : List String :=
  [ "NV_VGPU_MSG_FUNCTION",
    "NV_VGPU_MSG_EVENT" ]

/-! ## Output -/

/-- One `fprintf` call on the output file: the format string it uses and its
arguments. -/
inductive Line where
  /-- The format `"\n"`. -/
  | blank
  /-- The format `"\n\n"`. -/
  | blank2
  /-- The comment written before a growable struct's size check. -/
  | struct_append_comment
  /-- The format `"ABI_CHECK_SIZE_GE(%s, %ld);\n"`. -/
  | size_ge (str : String) (size : Nat)
  /-- The format `"ABI_CHECK_SIZE_EQ(%s, %ld);\n"`. -/
  | size_eq (str : String) (size : Nat)
  /-- The format `"ABI_CHECK_FIELD_FLEXIBLE(%s, %s, %ld);\n"`. -/
  | field_flexible (str fld : String) (offset : Nat)
  /-- The format `"ABI_CHECK_FIELD(%s, %s, %ld, %ld);\n"`. -/
  | field (str fld : String) (offset size : Nat)
  /-- The format `"#define %s %s\n"`. -/
  | define (name value : String)
  /-- The comment written before a growable enum's last member. -/
  | enum_append_comment
  /-- The format `"ABI_CHECK_ENUM_VAL_GE(%s, %s, %ld);\n"`. -/
  | enum_val_ge (enumname name : String) (value : Int)
  /-- The format `"ABI_CHECK_ENUM_VAL_EQ(%s, %s, %ld);\n"`. -/
  | enum_val_eq (enumname name : String) (value : Int)
  deriving DecidableEq, Repr

/-- The characters a `Line` puts in the output file. -/
def Line.text : Line → String
  | .blank => "\n"
  | .blank2 => "\n\n"
  | .struct_append_comment => "// Appending to the end of the struct is okay.\n"
  | .size_ge str size => "ABI_CHECK_SIZE_GE(" ++ str ++ ", " ++ fmt_ld size ++ ");\n"
  | .size_eq str size => "ABI_CHECK_SIZE_EQ(" ++ str ++ ", " ++ fmt_ld size ++ ");\n"
  | .field_flexible str fld offset =>
      "ABI_CHECK_FIELD_FLEXIBLE(" ++ str ++ ", " ++ fld ++ ", " ++ fmt_ld offset ++ ");\n"
  | .field str fld offset size =>
      "ABI_CHECK_FIELD(" ++ str ++ ", " ++ fld ++ ", " ++ fmt_ld offset ++ ", "
        ++ fmt_ld size ++ ");\n"
  | .define name value => "#define " ++ name ++ " " ++ value ++ "\n"
  | .enum_append_comment => "// Appending to the end of this enum is okay.\n"
  | .enum_val_ge enumname name value =>
      "ABI_CHECK_ENUM_VAL_GE(" ++ enumname ++ ", " ++ name ++ ", " ++ toString value ++ ");\n"
  | .enum_val_eq enumname name value =>
      "ABI_CHECK_ENUM_VAL_EQ(" ++ enumname ++ ", " ++ name ++ ", " ++ toString value ++ ");\n"

/-- The two streams a `print` method writes to: the output file and `stderr`. -/
structure Out where
  /-- The `fprintf(f, ...)` calls, oldest first. -/
  file : List Line
  /-- The `WARN(...)` messages, oldest first. -/
  err : List String
  deriving DecidableEq, Repr

/-- The characters in the output file after the given calls. -/
def file_text (ls : List Line) : String :=
  ls.foldl (fun acc l => acc ++ l.text) ""

/-- One `fprintf(f, ...)` call. -/
def Out.emit (o : Out) (l : Line) : Out := { o with file := o.file ++ [l] }

/-- One `WARN(...)` call. -/
def Out.warn (o : Out) (msg : String) : Out := { o with err := o.err ++ ["WARNING: " ++ msg] }

/-! ## `struct Struct` -/

/-- The nested `struct Field`. -/
structure Field where
  name : String
  size : Nat
  offset : Nat
  deriving DecidableEq, Repr

/-- The record `struct Struct : AbiChecked`. -/
structure Struct where
  name : String
  size : Nat
  fields : List Field
  deriving DecidableEq, Repr

/-- The test `field.name == fields.back().name` of `Struct::print`. -/
def Struct.is_back (s : Struct) (field : Field) : Bool :=
  match s.fields.getLast? with
  | some b => field.name == b.name
  | none => false

/-- The body of the `for (auto& field : fields)` loop of `Struct::print`. -/
def Struct.print_field (s : Struct) (o : Out) (field : Field) : Out :=
  if field.size = SIZE_MAX then
    if s.is_back field then
      o.emit (.field_flexible s.name field.name field.offset)
    else
      ((o.warn ("Failed to get size for " ++ s.name ++ "." ++ field.name ++ "\n")).emit
        (.field s.name field.name field.offset field.size))
  else
    o.emit (.field s.name field.name field.offset field.size)

/-- The method `Struct::print`, started on the streams `o`. -/
def Struct.print_from (g : Globals) (s : Struct) (o : Out) : Out :=
  let o := o.emit .blank
  let o :=
    if s.name ∈ g.flexible then
      (o.emit .struct_append_comment).emit (.size_ge s.name s.size)
    else
      o.emit (.size_eq s.name s.size)
  let o := s.fields.foldl s.print_field o
  o.emit .blank

/-- The method `Struct::print` on empty streams. -/
def Struct.print (g : Globals) (s : Struct) : Out := s.print_from g ⟨[], []⟩

/-! ## `struct Macro` -/

/-- The record `struct Macro : AbiChecked`. -/
structure Macro where
  name : String
  value : String
  deriving DecidableEq, Repr

/-- The call `strchr(s, c)`: the rest of `s` from the first `c` on, or null. -/
def strchr : List Char → Char → Option (List Char)
  | [], _ => none
  | a :: s, c => if a = c then some (a :: s) else strchr s c

/-- The loop `while (*val == ' ') val++;` of the `Macro` constructor. -/
def skip_spaces : List Char → List Char
  | [] => []
  | a :: val => if a = ' ' then skip_spaces val else a :: val

/-- The constructor `Macro::Macro(const char *def)`. Without a space in `def`
both strings stay default-constructed (empty). -/
def Macro.of_text (d : String) : Macro :=
  match strchr d.data ' ' with
  | some val =>
      { name := ⟨d.data.take (d.data.length - val.length)⟩
        value := ⟨skip_spaces val⟩ }
  | none => { name := "", value := "" }

/-- The method `Macro::print`, started on the streams `o`. -/
def Macro.print_from (m : Macro) (o : Out) : Out :=
  o.emit (.define m.name m.value)

/-- The method `Macro::print` on empty streams. -/
def Macro.print (m : Macro) : Out := m.print_from ⟨[], []⟩

/-! ## `struct Enum` -/

/-- The record `struct Enum : AbiChecked`; `values` holds the pairs
`(field_name, field_value)`. -/
structure Enum where
  name : String
  values : List (String × Int)
  deriving DecidableEq, Repr

/-- The test `field.first == values.back().first` of `Enum::print`. -/
def Enum.is_back (e : Enum) (field : String × Int) : Bool :=
  match e.values.getLast? with
  | some b => field.1 == b.1
  | none => false

/-- The body of the `for (auto& field : values)` loop of `Enum::print`. -/
def Enum.print_value (g : Globals) (e : Enum) (o : Out) (field : String × Int) : Out :=
  if e.name ∈ g.extendible_enums ∧ e.is_back field = true then
    (o.emit .enum_append_comment).emit (.enum_val_ge e.name field.1 field.2)
  else
    o.emit (.enum_val_eq e.name field.1 field.2)

/-- The method `Enum::print`, started on the streams `o`. -/
def Enum.print_from (g : Globals) (e : Enum) (o : Out) : Out :=
  let o := o.emit .blank
  let o := e.values.foldl (e.print_value g) o
  o.emit .blank2

/-- The method `Enum::print` on empty streams. -/
def Enum.print (g : Globals) (e : Enum) : Out := e.print_from g ⟨[], []⟩

/-! ## `struct AbiChecked` and the catalog `all` -/

/-- The objects behind an `AbiChecked*`: one of the three derived classes. -/
inductive AbiChecked where
  | struct_obj (s : Struct)
  | macro_obj (m : Macro)
  | enum_obj (e : Enum)
  deriving DecidableEq, Repr

/-- The member `AbiChecked::name`. -/
def AbiChecked.name : AbiChecked → String
  | .struct_obj s => s.name
  | .macro_obj m => m.name
  | .enum_obj e => e.name

/-- The virtual call `print(f)`, started on the streams `o`. -/
def AbiChecked.print_from (g : Globals) (a : AbiChecked) (o : Out) : Out :=
  match a with
  | .struct_obj s => s.print_from g o
  | .macro_obj m => m.print_from o
  | .enum_obj e => e.print_from g o

/-- The virtual call `print(f)` on empty streams. -/
def AbiChecked.print (g : Globals) (a : AbiChecked) : Out := a.print_from g ⟨[], []⟩

/-- The map `std::map<std::string, AbiChecked*> all`: its entries in iteration
order, which is increasing order of the keys. -/
abbrev Catalog := List (String × AbiChecked)

/-- The call `all.find(k)`: the object stored under `k`, if any. -/
def Catalog.find : Catalog → String → Option AbiChecked
  | [], _ => none
  | (k', v) :: rest, k => if k = k' then some v else Catalog.find rest k

/-- The call `all.count(k)`. -/
def Catalog.count (all : Catalog) (k : String) : Nat :=
  match all.find k with
  | some _ => 1
  | none => 0

/-- The assignment `all[k] = v`: the entry is put at its place in key order,
replacing an entry with the same key. Keys are compared as `std::string`s
are, character by character. -/
def Catalog.set : Catalog → String → AbiChecked → Catalog
  | [], k, v => [(k, v)]
  | (k', v') :: rest, k, v =>
      if k.data < k'.data then (k, v) :: (k', v') :: rest
      else if k = k' then (k, v) :: rest
      else (k', v') :: Catalog.set rest k v

/-- The keys of the catalog, in iteration order. -/
def Catalog.keys (all : Catalog) : List String := all.map Prod.fst

/-! ## `is_wanted` -/

/-- The call `strncmp(s1, s2, n)` on the contents of two C strings. The end
of a list stands for the terminating NUL, which is below every character of a
string's contents; of a non-zero result only the sign is kept. -/
def strncmp : List Char → List Char → Nat → Int
  | _, _, 0 => 0
  | [], [], _ + 1 => 0
  | [], _ :: _, _ + 1 => -1
  | _ :: _, [], _ + 1 => 1
  | a :: s1, b :: s2, n + 1 =>
      if a = b then strncmp s1 s2 n else if a < b then -1 else 1

/-- The loop `for (auto& prefix : wanted_prefix)` of `is_wanted`, which
returns `true` at the first match. -/
def is_wanted_scan (name : String) : List String → Bool
  | [] => false
  | pfx :: rest =>
      if strncmp name.data pfx.data pfx.length = 0 then true
      else is_wanted_scan name rest

/-- The function `is_wanted`. -/
def is_wanted (g : Globals) (name : String) : Bool :=
  if name ∈ g.wanted then true
  else is_wanted_scan name g.wanted_prefix

/-! ## The front-end's descriptors -/

/-- The numeric values of the tree codes the plugin compares with. They come
from the compiler's headers, which are not part of the repository. -/
structure TreeCodes where
  RECORD_TYPE : Nat
  ENUMERAL_TYPE : Nat
  INTEGER_CST : Nat

/-- A node of the `TYPE_FIELDS` chain, as far as the plugin reads it. -/
structure FieldDecl where
  /-- The name behind `DECL_NAME(field)`; `none` is the null tree. -/
  DECL_NAME : Option String
  /-- The result of `int_size_in_bytes(TREE_TYPE(field))`, `-1` when the size
  is not known. -/
  int_size_in_bytes : Int
  /-- The result of `TREE_INT_CST_LOW(byte_position(field))`. -/
  byte_position : Nat
  deriving DecidableEq, Repr

/-- The tree behind `TREE_VALUE(value)` of an enumerator. -/
structure ValueTree where
  /-- The result of `TREE_CODE`. -/
  code : Nat
  /-- The result of `TREE_INT_CST_LOW`, an unsigned `HOST_WIDE_INT`. -/
  low : Nat
  deriving DecidableEq, Repr

/-- A node of the `TYPE_VALUES` chain. -/
structure Enumerator where
  /-- The name behind `TREE_PURPOSE(value)`. -/
  TREE_PURPOSE : String
  /-- The tree `TREE_VALUE(value)`; `none` is the null tree. -/
  TREE_VALUE : Option ValueTree
  deriving DecidableEq, Repr

/-- A type tree, as far as the plugin reads it. -/
structure TypeTree where
  /-- The result of `TREE_CODE(type)`. -/
  code : Nat
  /-- The name behind `TYPE_NAME(type)`; `none` is the null tree. -/
  TYPE_NAME : Option String
  /-- The result of `int_size_in_bytes(type)`, `-1` when the size is not known. -/
  int_size_in_bytes : Int
  /-- The chain `TYPE_FIELDS(type)`. -/
  TYPE_FIELDS : List FieldDecl
  /-- The chain `TYPE_VALUES(type)`. -/
  TYPE_VALUES : List Enumerator
  deriving DecidableEq, Repr

/-- The macro `IDENTIFIER_POINTER`. Its callers test the tree for null first;
on the null tree the model yields the empty string. -/
def IDENTIFIER_POINTER (t : Option String) : String := t.getD ""

/-- The body of the `for (tree field = TYPE_FIELDS(t); ...)` loop of the
`Struct` constructor. -/
def Struct.push_field (fields : List Field) (field : FieldDecl) : List Field :=
  match field.DECL_NAME with
  | none => fields
  | some n =>
      fields ++ [{ name := n
                   size := to_size_t field.int_size_in_bytes
                   offset := field.byte_position % 18446744073709551616 }]

/-- The constructor `Struct::Struct(tree t)`. -/
def Struct.of_tree (t : TypeTree) : Struct :=
  { name := IDENTIFIER_POINTER t.TYPE_NAME
    size := to_size_t t.int_size_in_bytes
    fields := t.TYPE_FIELDS.foldl Struct.push_field [] }

/-- The streams and the vector `values` while the `Enum` constructor runs. -/
structure EnumBuild where
  values : List (String × Int)
  err : List String

/-- The body of the `for (tree value = TYPE_VALUES(t); ...)` loop of the
`Enum` constructor. The second test is `!TREE_CODE(...) == INTEGER_CST` as
written: the negation applies to the tree code, and its result (0 or 1) is
compared with `INTEGER_CST`. -/
def Enum.push_value (tc : TreeCodes) (b : EnumBuild) (value : Enumerator) : EnumBuild :=
  match value.TREE_VALUE with
  | none => { b with err := b.err ++ ["WARNING: No value for field\n"] }
  | some v =>
      if (if v.code = 0 then 1 else 0) = tc.INTEGER_CST then
        { b with err := b.err ++ ["WARNING: Field is not an integer\n"] }
      else
        { b with values := b.values ++ [(value.TREE_PURPOSE, to_long v.low)] }

/-- The constructor `Enum::Enum(tree t)`, with the warnings it writes. -/
def Enum.build (tc : TreeCodes) (t : TypeTree) : EnumBuild :=
  t.TYPE_VALUES.foldl (Enum.push_value tc) ⟨[], []⟩

/-- The object the constructor `Enum::Enum(tree t)` leaves. -/
def Enum.of_tree (tc : TreeCodes) (t : TypeTree) : Enum :=
  { name := IDENTIFIER_POINTER t.TYPE_NAME
    values := (Enum.build tc t).values }

/-- An entry of the preprocessor's identifier table, as far as the plugin
reads it. -/
structure CppNode where
  /-- The result of `NODE_NAME(node)`. -/
  NODE_NAME : String
  /-- The result of `cpp_macro_p(node)`. -/
  cpp_macro_p : Bool
  /-- The result of `cpp_macro_definition(reader, node)`. -/
  cpp_macro_definition : String
  deriving DecidableEq, Repr

/-! ## The callbacks -/

/-- The function `finish_type_callback`: the catalog it leaves. -/
def finish_type_callback (g : Globals) (tc : TreeCodes) (all : Catalog)
    (gcc_data : Option TypeTree) : Catalog :=
  match gcc_data with
  | none => all
  | some type =>
      match type.TYPE_NAME with
      | none => all
      | some type_name =>
          if is_wanted g type_name = true ∧ all.count type_name = 0 then
            if type.code = tc.RECORD_TYPE then
              let s := Struct.of_tree type
              if s.size = SIZE_MAX then all
              else all.set type_name (.struct_obj s)
            else if type.code = tc.ENUMERAL_TYPE then
              all.set type_name (.enum_obj (Enum.of_tree tc type))
            else all
          else all

/-- The lambda that `finish_unit_callback` passes to `cpp_forall_identifiers`:
the catalog it leaves. -/
def macro_callback (g : Globals) (all : Catalog) (node : Option CppNode) : Catalog :=
  match node with
  | none => all
  | some n =>
      if n.cpp_macro_p = true then
        if is_wanted g n.NODE_NAME = true ∧ all.count n.NODE_NAME = 0 then
          all.set n.NODE_NAME (.macro_obj (Macro.of_text n.cpp_macro_definition))
        else all
      else all

/-- The call `cpp_forall_identifiers(parse_in, ...)` of `finish_unit_callback`,
on the identifier table in the order the preprocessor enumerates it. -/
def macro_scan (g : Globals) (all : Catalog) (nodes : List (Option CppNode)) : Catalog :=
  nodes.foldl (macro_callback g) all

/-- The loop `for (auto& w : wanted)` of `finish_unit_callback`. -/
def missing_scan (g : Globals) (all : Catalog) (o : Out) : Out :=
  g.wanted.foldl
    (fun o w => if all.find w = none then o.warn ("Missing wanted symbol " ++ w ++ "\n") else o) o

/-- The loop `for (auto& s : all)` of `finish_unit_callback`. -/
def print_all (g : Globals) (all : Catalog) (o : Out) : Out :=
  all.foldl (fun o s => s.2.print_from g o) o

/-- The function `finish_unit_callback`: the catalog it leaves and what it
writes. -/
def finish_unit_callback (g : Globals) (all : Catalog) (nodes : List (Option CppNode)) :
    Catalog × Out :=
  let all := macro_scan g all nodes
  let o := missing_scan g all ⟨[], []⟩
  let o := print_all g all o
  (all, o)

/-- The catalog after the given declaration-finalized events, from the empty
catalog. -/
def collect (g : Globals) (tc : TreeCodes) (events : List (Option TypeTree)) : Catalog :=
  events.foldl (finish_type_callback g tc) []

/-! ## The generated assertions, read against a layout -/

/-- The value of `sizeof(str)` when the struct `l` is the one declared. -/
def sizeof_struct (l : Struct) (str : String) : Option Nat :=
  if str = l.name then some l.size else none

/-- The declaration of the field `fld` in the struct `l`. -/
def lookup_field (l : Struct) (str fld : String) : Option Field :=
  if str = l.name then l.fields.find? (fun f => f.name == fld) else none

/-- The value of `NV_OFFSETOF(str, fld)`. -/
def offsetof (l : Struct) (str fld : String) : Option Nat :=
  (lookup_field l str fld).map Field.offset

/-- The value of `sizeof(((str*)0)->fld)`; a field whose size is not known
has none. -/
def sizeof_field (l : Struct) (str fld : String) : Option Nat :=
  match lookup_field l str fld with
  | some f => if f.size = SIZE_MAX then none else some f.size
  | none => none

/-- Whether the `ct_assert`s that a line expands to, by the macro definitions
of the preamble, hold when the struct `l` is the one declared. Lines that
assert nothing about a struct hold. -/
def Line.holds (l : Struct) : Line → Bool
  | .size_eq str size => sizeof_struct l str == some size
  | .size_ge str size =>
      match sizeof_struct l str with
      | some n => decide (size ≤ n)
      | none => false
  | .field str fld offset size =>
      offsetof l str fld == some offset && sizeof_field l str fld == some size
  | .field_flexible str fld offset =>
      offsetof l str fld == some offset &&
        (match sizeof_struct l str with
         | some n => decide (offset ≤ n)
         | none => false)
  | _ => true

/-! ## Line-by-line descriptions used in the statements -/

/-- The line `Struct::print` writes for one field, as a function of the field
alone: the flexible form when the size is `~0` and the field bears the name of
the last field, the exact form otherwise. -/
def Struct.field_line (s : Struct) (f : Field) : Line :=
  if f.size = SIZE_MAX ∧ s.is_back f = true then .field_flexible s.name f.name f.offset
  else .field s.name f.name f.offset f.size

/-- The line for the last field of a struct when field names are distinct. -/
def last_field_line (str : String) (f : Field) : Line :=
  if f.size = SIZE_MAX then .field_flexible str f.name f.offset
  else .field str f.name f.offset f.size

/-- The lines `Enum::print` writes for one member, as a function of the member
alone. -/
def Enum.value_lines (g : Globals) (e : Enum) (m : String × Int) : List Line :=
  if e.name ∈ g.extendible_enums ∧ e.is_back m = true then
    [.enum_append_comment, .enum_val_ge e.name m.1 m.2]
  else [.enum_val_eq e.name m.1 m.2]

/-! ## Example data -/

/-- A configuration with the source's policy sets and the names of the
specification's scenarios in the allow-list. -/
def scenario_globals : Globals :=
  { wanted := ["Bar", "FOO", "Foo"]
    wanted_prefix := ["NV_VGPU_MSG_"]
    flexible := flexible
    extendible_enums := extendible_enums }

/-- The struct of the specification's scenario: size 16, `a` at 0 and `b` at 4,
both of size 4. -/
def scenario_foo : Struct :=
  { name := "Foo", size := 16, fields := [⟨"a", 4, 0⟩, ⟨"b", 4, 4⟩] }

/-- The record of `struct Foo { int n; char data[]; }`: the size of the
trailing array is not known. -/
def tail_foo : Struct :=
  { name := "Foo", size := 4, fields := [⟨"n", 4, 0⟩, ⟨"data", SIZE_MAX, 4⟩] }

/-- The record of `struct Foo { int n; char data[0]; }`. -/
def tail_foo_sized : Struct :=
  { name := "Foo", size := 4, fields := [⟨"n", 4, 0⟩, ⟨"data", 0, 4⟩] }

/-- A growable struct (its name is in `flexible`) with a trailing field of
unknown size. -/
def tail_info : Struct :=
  { name := "GspSystemInfo", size := 8, fields := [⟨"a", 8, 0⟩, ⟨"tail", SIZE_MAX, 8⟩] }

/-- A growable struct whose fields all have a known size. -/
def sized_info : Struct :=
  { name := "GspSystemInfo", size := 12, fields := [⟨"a", 8, 0⟩, ⟨"b", 4, 8⟩] }

/-- The configuration of the specification's enum scenario: `Bar` is
whitelisted and growable. -/
def bar_globals : Globals :=
  { wanted := ["Bar"], wanted_prefix := [], flexible := [], extendible_enums := ["Bar"] }

/-- The enum of the specification's scenario: `X = 1`, `Y = 2`. -/
def scenario_bar : Enum :=
  { name := "Bar", values := [("X", 1), ("Y", 2)] }

/-- An example numbering of the tree codes. -/
def example_codes : TreeCodes :=
  { RECORD_TYPE := 17, ENUMERAL_TYPE := 6, INTEGER_CST := 26 }

/-- The tree of `struct Foo { int a; int b; ... }` of size 16. -/
def foo_tree : TypeTree :=
  { code := 17, TYPE_NAME := some "Foo", int_size_in_bytes := 16
    TYPE_FIELDS := [⟨some "a", 4, 0⟩, ⟨some "b", 4, 4⟩], TYPE_VALUES := [] }

/-- The tree of an enum that is also named `Foo`. -/
def foo_enum_tree : TypeTree :=
  { code := 6, TYPE_NAME := some "Foo", int_size_in_bytes := 4
    TYPE_FIELDS := [], TYPE_VALUES := [⟨"FOO_A", some ⟨26, 0⟩⟩] }

/-- The tree of `enum Bar { X = 1, Y = 2 }`. -/
def bar_tree : TypeTree :=
  { code := 6, TYPE_NAME := some "Bar", int_size_in_bytes := 4
    TYPE_FIELDS := [], TYPE_VALUES := [⟨"X", some ⟨26, 1⟩⟩, ⟨"Y", some ⟨26, 2⟩⟩] }

/-- The tree of a struct that is not in the allow-list. -/
def other_tree : TypeTree :=
  { code := 17, TYPE_NAME := some "Other", int_size_in_bytes := 4
    TYPE_FIELDS := [⟨some "x", 4, 0⟩], TYPE_VALUES := [] }

/-- A macro table: `FOO` defined as `1+2`, a macro named like the struct
`Foo`, a macro outside the allow-list, and an identifier that is no macro. -/
def example_nodes : List (Option CppNode) :=
  [ some ⟨"FOO", true, "FOO 1+2"⟩,
    some ⟨"Foo", true, "Foo 7"⟩,
    some ⟨"UNRELATED", true, "UNRELATED 0"⟩,
    some ⟨"Bar", false, ""⟩,
    none ]

/-! ## Descriptions used in the statements on extraction and finalization -/

/-- The warnings `Struct::print` writes for one field: one when the size is
`~0` and the field does not bear the name of the last field. -/
def Struct.field_warnings (s : Struct) (f : Field) : List String :=
  if f.size = SIZE_MAX ∧ s.is_back f = false then
    ["WARNING: " ++ ("Failed to get size for " ++ s.name ++ "." ++ f.name ++ "\n")]
  else []

/-- The text that `WARN("Missing wanted symbol %s\n", w.c_str())` writes. -/
def missing_msg (w : String) : String :=
  "WARNING: " ++ ("Missing wanted symbol " ++ w ++ "\n")

/-- The entry the `Struct` constructor makes for a named field declaration. -/
def Field.of_decl (n : String) (fd : FieldDecl) : Field :=
  { name := n
    size := to_size_t fd.int_size_in_bytes
    offset := fd.byte_position % 18446744073709551616 }

/-- The tree of `struct Gap { int a; <unsizable> hole; int b; }`: the field
`hole`, which is not the last one, has no known size. -/
def gap_tree : TypeTree :=
  { code := 17, TYPE_NAME := some "Gap", int_size_in_bytes := 12
    TYPE_FIELDS := [⟨some "a", 4, 0⟩, ⟨none, 4, 4⟩, ⟨some "hole", -1, 4⟩, ⟨some "b", 4, 8⟩]
    TYPE_VALUES := [] }

/-- The tree of a struct `Foo` whose size the front-end cannot compute. -/
def unsized_foo_tree : TypeTree :=
  { code := 17, TYPE_NAME := some "Foo", int_size_in_bytes := -1
    TYPE_FIELDS := [⟨some "a", 4, 0⟩], TYPE_VALUES := [] }

/-- The tree of an enum `Bar` with an integer constant `A = 1`, an enumerator
`B` whose value tree is not an integer constant (its code is not
`INTEGER_CST`), and an enumerator `C` without a value. -/
def mixed_bar_tree : TypeTree :=
  { code := 6, TYPE_NAME := some "Bar", int_size_in_bytes := 4
    TYPE_FIELDS := []
    TYPE_VALUES := [⟨"A", some ⟨26, 1⟩⟩, ⟨"B", some ⟨35, 7⟩⟩, ⟨"C", none⟩] }

/-- A macro table whose only entry is the whitelisted `FOO` with a definition
text that holds no space. -/
def bare_nodes : List (Option CppNode) := [some ⟨"FOO", true, "FOO"⟩]

/-- A macro table whose only entry is the whitelisted `FOO` defined with an
empty body, `#define FOO`: the front-end writes a space after the name, so the
definition text is `FOO` followed by a space. -/
def empty_body_nodes : List (Option CppNode) := [some ⟨"FOO", true, "FOO "⟩]

/-- A macro table whose only entry is the whitelisted function-like macro
`#define FOO(x) ((x) << 2)`. -/
def function_like_nodes : List (Option CppNode) :=
  [some ⟨"FOO", true, "FOO(x) ((x) << 2)"⟩]

/-! ## Lemmas on the output streams -/

@[simp] theorem Out.emit_file (o : Out) (l : Line) : (o.emit l).file = o.file ++ [l] := rfl

@[simp] theorem Out.emit_err (o : Out) (l : Line) : (o.emit l).err = o.err := rfl

@[simp] theorem Out.warn_file (o : Out) (m : String) : (o.warn m).file = o.file := rfl

@[simp] theorem Out.warn_err (o : Out) (m : String) :
    (o.warn m).err = o.err ++ ["WARNING: " ++ m] := rfl

/-! ## Lemmas on `Struct::print` -/

theorem Struct.print_field_file (s : Struct) (o : Out) (f : Field) :
    (s.print_field o f).file = o.file ++ [s.field_line f] := by
  unfold Struct.print_field Struct.field_line
  by_cases h1 : f.size = SIZE_MAX <;> by_cases h2 : s.is_back f = true <;> simp [h1, h2]

theorem Struct.foldl_print_field_file (s : Struct) (fs : List Field) (o : Out) :
    (fs.foldl s.print_field o).file = o.file ++ fs.map s.field_line := by
  induction fs generalizing o with
  | nil => simp
  | cons f fs ih => simp [List.foldl_cons, ih, Struct.print_field_file]

/-- With distinct field names only the last field bears the last field's name. -/
theorem Struct.is_back_of_nodup (s : Struct) (init : List Field) (last : Field)
    (hs : s.fields = init ++ [last]) (hnd : (s.fields.map Field.name).Nodup) :
    (∀ f ∈ init, s.is_back f = false) ∧ s.is_back last = true := by
  have hl : s.fields.getLast? = some last := by rw [hs]; exact List.getLast?_concat _
  refine ⟨fun f hf => ?_, by simp [Struct.is_back, hl]⟩
  rw [hs, List.map_append, List.nodup_append] at hnd
  have hdis := hnd.2.2
  have hne : f.name ≠ last.name := by
    intro heq
    exact hdis (List.mem_map_of_mem Field.name hf) (by simp [heq])
  simp [Struct.is_back, hl, hne]

/-- The per-field lines of a struct with distinct field names. -/
theorem Struct.field_lines_of_nodup (s : Struct)
    (hnd : (s.fields.map Field.name).Nodup) :
    s.fields.map s.field_line
      = s.fields.dropLast.map (fun f => Line.field s.name f.name f.offset f.size)
        ++ (match s.fields.getLast? with
            | none => []
            | some f => [last_field_line s.name f]) := by
  rcases List.eq_nil_or_concat s.fields with h | ⟨init, last, h⟩
  · simp [h]
  · rw [List.concat_eq_append] at h
    obtain ⟨h1, h2⟩ := s.is_back_of_nodup init last h hnd
    have hl : s.fields.getLast? = some last := by rw [h]; exact List.getLast?_concat _
    rw [hl]
    conv_lhs => rw [h]
    have hd : s.fields.dropLast = init := by rw [h]; exact List.dropLast_concat
    rw [hd, List.map_append]
    congr 1
    · apply List.map_congr_left
      intro f hf
      simp [Struct.field_line, h1 f hf]
    · simp [Struct.field_line, last_field_line, h2]

/-- The whole output of `Struct::print` in terms of `field_line`. -/
theorem Struct.print_file (g : Globals) (s : Struct) :
    (s.print g).file
      = [Line.blank]
        ++ (if s.name ∈ g.flexible then
              [Line.struct_append_comment, Line.size_ge s.name s.size]
            else [Line.size_eq s.name s.size])
        ++ s.fields.map s.field_line ++ [Line.blank] := by
  unfold Struct.print Struct.print_from
  by_cases h : s.name ∈ g.flexible <;> simp [h, Struct.foldl_print_field_file]

/-- In a list of fields with distinct names, a field is found by its name. -/
theorem find_field_of_nodup (fs : List Field) (f : Field)
    (hnd : (fs.map Field.name).Nodup) (hf : f ∈ fs) :
    fs.find? (fun x => x.name == f.name) = some f := by
  induction fs with
  | nil => simp at hf
  | cons a fs ih =>
    rw [List.map_cons, List.nodup_cons] at hnd
    rcases List.mem_cons.mp hf with rfl | hf'
    · simp
    · have hne : a.name ≠ f.name := fun h =>
        hnd.1 (h ▸ List.mem_map_of_mem Field.name hf')
      simp [List.find?_cons, hne, ih hnd.2 hf']

/-- In a list of fields with distinct names, a field that bears the name of
the last field is the last field. -/
theorem Struct.is_back_iff_of_nodup (s : Struct) (f : Field)
    (hnd : (s.fields.map Field.name).Nodup) (hf : f ∈ s.fields) :
    s.is_back f = true ↔ s.fields.getLast? = some f := by
  rcases List.eq_nil_or_concat s.fields with h | ⟨init, last, h⟩
  · rw [h] at hf; simp at hf
  · rw [List.concat_eq_append] at h
    have hl : s.fields.getLast? = some last := by rw [h]; exact List.getLast?_concat _
    have hlast : last ∈ s.fields := by rw [h]; simp
    have hinj := List.inj_on_of_nodup_map hnd
    constructor
    · intro hb
      have hn : f.name = last.name := by simpa [Struct.is_back, hl] using hb
      rw [hl, hinj hf hlast hn]
    · intro hb
      rw [hl] at hb
      have : last = f := Option.some.inj hb
      subst this
      simp [Struct.is_back, hl]

/-! ## Rendering of structs -/

/-- Claim C1 as stated, refuted. The struct `Foo` with fields `n` and a
trailing `data` of unknown size is not in the growable set, yet `Struct::print`
does not write an `ABI_CHECK_FIELD` line for every field: for `data` it writes
`ABI_CHECK_FIELD_FLEXIBLE(Foo, data, 4)`. -/
theorem print_exact_counterexample :
    tail_foo.name ∉ scenario_globals.flexible
    ∧ (tail_foo.print scenario_globals).file
        ≠ [Line.blank, Line.size_eq tail_foo.name tail_foo.size]
          ++ tail_foo.fields.map (fun f => Line.field tail_foo.name f.name f.offset f.size)
          ++ [Line.blank]
    ∧ file_text (tail_foo.print scenario_globals).file
        = "\nABI_CHECK_SIZE_EQ(Foo, 4);\nABI_CHECK_FIELD(Foo, n, 0, 4);\nABI_CHECK_FIELD_FLEXIBLE(Foo, data, 4);\n\n" := by
  decide

/-- Claim C1, amended. For a struct whose name is not in the growable set and
whose field names are distinct, `Struct::print` writes a blank line,
`ABI_CHECK_SIZE_EQ(name, size)`, then one line per field in declaration order,
then a blank line. The line of every field but the last is
`ABI_CHECK_FIELD(name, field, offset, size)`; so is the line of the last field,
unless its size is unresolved (`~0`), in which case it is
`ABI_CHECK_FIELD_FLEXIBLE(name, field, offset)`. -/
theorem Struct.print_exact (g : Globals) (s : Struct)
    (hname : s.name ∉ g.flexible) (hnd : (s.fields.map Field.name).Nodup) :
    (s.print g).file
      = [Line.blank, Line.size_eq s.name s.size]
        ++ s.fields.dropLast.map (fun f => Line.field s.name f.name f.offset f.size)
        ++ (match s.fields.getLast? with
            | none => []
            | some f =>
                [if f.size = SIZE_MAX then Line.field_flexible s.name f.name f.offset
                 else Line.field s.name f.name f.offset f.size])
        ++ [Line.blank] := by
  rw [Struct.print_file, Struct.field_lines_of_nodup s hnd]
  simp [hname, last_field_line]

/-- The scenario of the specification: `Foo` of size 16 with `a` at 0 and `b`
at 4, both of size 4, outside the growable set. -/
theorem Struct.print_exact_witness :
    (scenario_foo.print scenario_globals).file
        = [Line.blank, Line.size_eq "Foo" 16, Line.field "Foo" "a" 0 4,
           Line.field "Foo" "b" 4 4, Line.blank]
    ∧ file_text (scenario_foo.print scenario_globals).file
        = "\nABI_CHECK_SIZE_EQ(Foo, 16);\nABI_CHECK_FIELD(Foo, a, 0, 4);\nABI_CHECK_FIELD(Foo, b, 4, 4);\n\n" :=
  ⟨Struct.print_exact scenario_globals scenario_foo (by decide) (by decide), by decide⟩

/-- The flexible line of a field says nothing of the field's size: its truth
is the same on two layouts that agree on the struct's name and size and on the
names and offsets of the fields. -/
theorem Line.holds_field_flexible_congr (l l' : Struct) (str fld : String) (offset : Nat)
    (hn : l'.name = l.name) (hs : l'.size = l.size)
    (hf : l'.fields.map (fun f => (f.name, f.offset))
            = l.fields.map (fun f => (f.name, f.offset))) :
    (Line.field_flexible str fld offset).holds l'
      = (Line.field_flexible str fld offset).holds l := by
  have key : ∀ (a b : List Field),
      a.map (fun f => (f.name, f.offset)) = b.map (fun f => (f.name, f.offset)) →
      (a.find? (fun f => f.name == fld)).map Field.offset
        = (b.find? (fun f => f.name == fld)).map Field.offset := by
    intro a
    induction a with
    | nil =>
      intro b hab
      cases b with
      | nil => rfl
      | cons y b => simp at hab
    | cons x a ih =>
      intro b hab
      cases b with
      | nil => simp at hab
      | cons y b =>
        simp only [List.map_cons, List.cons.injEq, Prod.mk.injEq] at hab
        obtain ⟨⟨hname, hoff⟩, hrest⟩ := hab
        by_cases hx : x.name = fld
        · have hy : y.name = fld := hname ▸ hx
          simp [List.find?_cons, hx, hy, hoff]
        · have hy : ¬ y.name = fld := hname ▸ hx
          simpa [List.find?_cons, hx, hy] using ih b hrest
  have hoff : offsetof l' str fld = offsetof l str fld := by
    unfold offsetof lookup_field
    rw [hn]
    by_cases h : str = l.name
    · simpa [h] using key _ _ hf
    · simp [h]
  simp only [Line.holds, hoff, sizeof_struct, hn, hs]

/-- Claim C6. For a struct whose name is in the growable set (field names
distinct), `Struct::print` writes a blank line, the append comment,
`ABI_CHECK_SIZE_GE(name, size)` (no `ABI_CHECK_SIZE_EQ`), then one line per
field in declaration order, then a blank line. Every field gets
`ABI_CHECK_FIELD(name, field, offset, size)`, except a last field of
unresolved size, which gets the single line
`ABI_CHECK_FIELD_FLEXIBLE(name, field, offset)`; that line asserts nothing of
the field's size: it holds on a layout exactly when it holds on the layout with
any other field sizes. -/
theorem Struct.print_growable (g : Globals) (s : Struct)
    (hname : s.name ∈ g.flexible) (hnd : (s.fields.map Field.name).Nodup) :
    (s.print g).file
        = [Line.blank, Line.struct_append_comment, Line.size_ge s.name s.size]
          ++ s.fields.dropLast.map (fun f => Line.field s.name f.name f.offset f.size)
          ++ (match s.fields.getLast? with
              | none => []
              | some f =>
                  [if f.size = SIZE_MAX then Line.field_flexible s.name f.name f.offset
                   else Line.field s.name f.name f.offset f.size])
          ++ [Line.blank]
    ∧ Line.size_eq s.name s.size ∉ (s.print g).file
    ∧ ∀ (f : Field) (l : Struct) (resize : Field → Nat),
        (Line.field_flexible s.name f.name f.offset).holds
            { l with fields := l.fields.map (fun x => { x with size := resize x }) }
          = (Line.field_flexible s.name f.name f.offset).holds l := by
  have hfile : (s.print g).file
        = [Line.blank, Line.struct_append_comment, Line.size_ge s.name s.size]
          ++ s.fields.dropLast.map (fun f => Line.field s.name f.name f.offset f.size)
          ++ (match s.fields.getLast? with
              | none => []
              | some f =>
                  [if f.size = SIZE_MAX then Line.field_flexible s.name f.name f.offset
                   else Line.field s.name f.name f.offset f.size])
          ++ [Line.blank] := by
    rw [Struct.print_file, Struct.field_lines_of_nodup s hnd]
    simp [hname, last_field_line]
  refine ⟨hfile, ?_, ?_⟩
  · rw [Struct.print_file]
    simp only [hname, if_true, List.mem_append, List.mem_cons, List.mem_map,
      List.mem_singleton, List.not_mem_nil, or_false]
    rintro (((h | h | h) | ⟨f, -, h⟩) | h)
    · cases h
    · cases h
    · cases h
    · unfold Struct.field_line at h
      split at h <;> cases h
    · cases h
  · intro f l resize
    apply Line.holds_field_flexible_congr
    · rfl
    · rfl
    · simp [List.map_map, Function.comp_def]

/-- Two growable structs of the source's `flexible` set: one with a trailing
field of unknown size, one with known sizes only. -/
theorem Struct.print_growable_witness :
    ((tail_info.print scenario_globals).file
        = [Line.blank, Line.struct_append_comment, Line.size_ge "GspSystemInfo" 8,
           Line.field "GspSystemInfo" "a" 0 8,
           Line.field_flexible "GspSystemInfo" "tail" 8, Line.blank])
    ∧ ((sized_info.print scenario_globals).file
        = [Line.blank, Line.struct_append_comment, Line.size_ge "GspSystemInfo" 12,
           Line.field "GspSystemInfo" "a" 0 8, Line.field "GspSystemInfo" "b" 8 4,
           Line.blank])
    ∧ file_text (tail_info.print scenario_globals).file
        = "\n// Appending to the end of the struct is okay.\nABI_CHECK_SIZE_GE(GspSystemInfo, 8);\nABI_CHECK_FIELD(GspSystemInfo, a, 0, 8);\nABI_CHECK_FIELD_FLEXIBLE(GspSystemInfo, tail, 8);\n\n" :=
  ⟨(Struct.print_growable scenario_globals tail_info (by decide) (by decide)).1,
   (Struct.print_growable scenario_globals sized_info (by decide) (by decide)).1,
   by decide⟩

/-! ## Exact-policy soundness -/

/-- Claim C5 as stated, refuted. `Foo` with a trailing `data` of unknown size
is not in the growable set. The layout in which `data` has size 0 bears the
same struct name and field names and differs in the size of `data`, yet every
assertion rendered for the former holds on it. -/
theorem exact_policy_counterexample :
    tail_foo.name ∉ scenario_globals.flexible
    ∧ tail_foo_sized.name = tail_foo.name
    ∧ tail_foo_sized.fields.map Field.name = tail_foo.fields.map Field.name
    ∧ (∃ fs ∈ tail_foo.fields, ∃ fl ∈ tail_foo_sized.fields,
        fl.name = fs.name ∧ fl.size ≠ fs.size)
    ∧ ∀ line ∈ (tail_foo.print scenario_globals).file, line.holds tail_foo_sized = true := by
  decide

/-- Claim C5, amended. Let `s` be a struct whose name is not in the growable
set, with distinct field names, and `l` a layout with the same struct name and
the same field names. If `l` differs from `s` in the total size, in the offset
of a field, or in the size of a field other than a last field of `s` whose
size is unresolved, then some line that `Struct::print` writes for `s` is false
on `l`. -/
theorem Struct.exact_policy_sound (g : Globals) (s l : Struct)
    (hname : s.name ∉ g.flexible)
    (hnd : (s.fields.map Field.name).Nodup)
    (hln : l.name = s.name)
    (hlf : l.fields.map Field.name = s.fields.map Field.name)
    (hdiff : l.size ≠ s.size
      ∨ ∃ fs ∈ s.fields, ∃ fl ∈ l.fields, fl.name = fs.name
          ∧ (fl.offset ≠ fs.offset
             ∨ (fl.size ≠ fs.size
                ∧ ¬ (fs.size = SIZE_MAX ∧ s.fields.getLast? = some fs)))) :
    ∃ line ∈ (s.print g).file, line.holds l = false := by
  rw [Struct.print_file]
  simp only [hname, if_false]
  rcases hdiff with hsize | ⟨fs, hfs, fl, hfl, hnm, hd⟩
  · refine ⟨Line.size_eq s.name s.size, by simp, ?_⟩
    simp [Line.holds, sizeof_struct, hln, hsize]
  · have hndl : (l.fields.map Field.name).Nodup := hlf ▸ hnd
    have hfind : lookup_field l s.name fs.name = some fl := by
      unfold lookup_field
      rw [hln, if_pos rfl, ← hnm]
      exact find_field_of_nodup l.fields fl hndl hfl
    refine ⟨s.field_line fs, by simp [List.mem_map_of_mem _ hfs], ?_⟩
    rcases hd with hoff | ⟨hsz, hflex⟩
    · unfold Struct.field_line
      split <;> simp [Line.holds, offsetof, hfind, hoff]
    · have hnb : ¬ (fs.size = SIZE_MAX ∧ s.is_back fs = true) := by
        rw [s.is_back_iff_of_nodup fs hnd hfs]
        exact hflex
      unfold Struct.field_line
      rw [if_neg hnb]
      by_cases hmax : fl.size = SIZE_MAX
      · simp [Line.holds, sizeof_field, hfind, hmax]
      · simp [Line.holds, sizeof_field, hfind, hmax, hsz]

/-- The scenario's `Foo` against the layout in which `b` has moved to offset 8:
the line `ABI_CHECK_FIELD(Foo, b, 4, 4)` is false on it. -/
theorem Struct.exact_policy_sound_witness :
    ∃ line ∈ (scenario_foo.print scenario_globals).file,
      line.holds { name := "Foo", size := 16, fields := [⟨"a", 4, 0⟩, ⟨"b", 4, 8⟩] } = false :=
  Struct.exact_policy_sound scenario_globals scenario_foo
    { name := "Foo", size := 16, fields := [⟨"a", 4, 0⟩, ⟨"b", 4, 8⟩] }
    (by decide) (by decide) rfl rfl
    (Or.inr ⟨⟨"b", 4, 4⟩, by decide, ⟨"b", 4, 8⟩, by decide, rfl, Or.inl (by decide)⟩)

/-! ## Growth tolerance -/

/-- Claim C7. Let `s` be a struct whose name is in the growable set and `s'`
the struct obtained by appending one trailing field `nf`, with a total size at
least that of `s`. The fields of `s` are not last in `s'`, so their sizes are
known (the front-end leaves only a last field, a flexible array member, without
a size). Then the output for `s` and the output for `s'` hold, after their
headers, the same line `ABI_CHECK_FIELD(name, field, offset, size)` for every
field of `s`, in declaration order; the output for `s'` goes on with the line
of `nf`; and the size assertion written for `s`, `sizeof >= s.size`, holds on
`s'`. -/
theorem Struct.growth_tolerant (g : Globals) (s : Struct) (nf : Field) (size' : Nat)
    (hname : s.name ∈ g.flexible)
    (hres : ∀ f ∈ s.fields, f.size ≠ SIZE_MAX)
    (hsize : s.size ≤ size') :
    (s.print g).file
        = [Line.blank, Line.struct_append_comment, Line.size_ge s.name s.size]
          ++ s.fields.map (fun f => Line.field s.name f.name f.offset f.size)
          ++ [Line.blank]
    ∧ (Struct.print g { s with size := size', fields := s.fields ++ [nf] }).file
        = [Line.blank, Line.struct_append_comment, Line.size_ge s.name size']
          ++ s.fields.map (fun f => Line.field s.name f.name f.offset f.size)
          ++ [if nf.size = SIZE_MAX then Line.field_flexible s.name nf.name nf.offset
              else Line.field s.name nf.name nf.offset nf.size]
          ++ [Line.blank]
    ∧ (Line.size_ge s.name s.size).holds
        { s with size := size', fields := s.fields ++ [nf] } = true := by
  have hold : ∀ t : Struct, t.name = s.name →
      s.fields.map t.field_line
        = s.fields.map (fun f => Line.field s.name f.name f.offset f.size) := by
    intro t ht
    apply List.map_congr_left
    intro f hf
    simp [Struct.field_line, hres f hf, ht]
  refine ⟨?_, ?_, ?_⟩
  · rw [Struct.print_file, hold s rfl]
    simp [hname]
  · rw [Struct.print_file]
    have hback : Struct.is_back { s with size := size', fields := s.fields ++ [nf] } nf
        = true := by
      simp [Struct.is_back, List.getLast?_concat]
    have hnew : Struct.field_line { s with size := size', fields := s.fields ++ [nf] } nf
        = (if nf.size = SIZE_MAX then Line.field_flexible s.name nf.name nf.offset
           else Line.field s.name nf.name nf.offset nf.size) := by
      by_cases hsz : nf.size = SIZE_MAX <;> simp [Struct.field_line, hback, hsz]
    simp only [List.map_append, List.map_cons, List.map_nil, hnew,
      hold { s with size := size', fields := s.fields ++ [nf] } rfl, hname, if_true]
    simp
  · simp [Line.holds, sizeof_struct, hsize]

/-- The growable struct with known sizes, grown by a field `c` of size 4 at
offset 12; and the same struct grown by a trailing array `tail` of unknown
size. -/
theorem Struct.growth_tolerant_witness :
    ((sized_info.print scenario_globals).file
      = [Line.blank, Line.struct_append_comment, Line.size_ge "GspSystemInfo" 12,
         Line.field "GspSystemInfo" "a" 0 8, Line.field "GspSystemInfo" "b" 8 4,
         Line.blank])
    ∧ ((Struct.print scenario_globals
        { sized_info with size := 16, fields := sized_info.fields ++ [⟨"c", 4, 12⟩] }).file
      = [Line.blank, Line.struct_append_comment, Line.size_ge "GspSystemInfo" 16,
         Line.field "GspSystemInfo" "a" 0 8, Line.field "GspSystemInfo" "b" 8 4,
         Line.field "GspSystemInfo" "c" 12 4, Line.blank])
    ∧ ((Line.size_ge "GspSystemInfo" 12).holds
        { sized_info with size := 16, fields := sized_info.fields ++ [⟨"c", 4, 12⟩] } = true)
    ∧ ((Struct.print scenario_globals
        { sized_info with size := 12,
                          fields := sized_info.fields ++ [⟨"tail", SIZE_MAX, 12⟩] }).file
      = [Line.blank, Line.struct_append_comment, Line.size_ge "GspSystemInfo" 12,
         Line.field "GspSystemInfo" "a" 0 8, Line.field "GspSystemInfo" "b" 8 4,
         Line.field_flexible "GspSystemInfo" "tail" 12, Line.blank]) :=
  ⟨(Struct.growth_tolerant scenario_globals sized_info ⟨"c", 4, 12⟩ 16
      (by decide) (by decide) (by decide)).1,
   (Struct.growth_tolerant scenario_globals sized_info ⟨"c", 4, 12⟩ 16
      (by decide) (by decide) (by decide)).2.1,
   (Struct.growth_tolerant scenario_globals sized_info ⟨"c", 4, 12⟩ 16
      (by decide) (by decide) (by decide)).2.2,
   (Struct.growth_tolerant scenario_globals sized_info ⟨"tail", SIZE_MAX, 12⟩ 12
      (by decide) (by decide) (by decide)).2.1⟩

/-! ## Rendering of enums -/

theorem Enum.print_value_file (g : Globals) (e : Enum) (o : Out) (m : String × Int) :
    (e.print_value g o m).file = o.file ++ e.value_lines g m := by
  unfold Enum.print_value Enum.value_lines
  split <;> simp

theorem Enum.foldl_print_value_file (g : Globals) (e : Enum) (ms : List (String × Int))
    (o : Out) :
    (ms.foldl (e.print_value g) o).file = o.file ++ (ms.map (e.value_lines g)).flatten := by
  induction ms generalizing o with
  | nil => simp
  | cons m ms ih => simp [List.foldl_cons, ih, Enum.print_value_file]

/-- The whole output of `Enum::print` in terms of `value_lines`. -/
theorem Enum.print_file_values (g : Globals) (e : Enum) :
    (e.print g).file
      = [Line.blank] ++ (e.values.map (e.value_lines g)).flatten ++ [Line.blank2] := by
  unfold Enum.print Enum.print_from
  simp [Enum.foldl_print_value_file]

/-- With distinct member names only the last member bears the last member's
name. -/
theorem Enum.value_is_back_of_nodup (e : Enum) (init : List (String × Int)) (last : String × Int)
    (hs : e.values = init ++ [last]) (hnd : (e.values.map Prod.fst).Nodup) :
    (∀ m ∈ init, e.is_back m = false) ∧ e.is_back last = true := by
  have hl : e.values.getLast? = some last := by rw [hs]; exact List.getLast?_concat _
  refine ⟨fun m hm => ?_, by simp [Enum.is_back, hl]⟩
  rw [hs, List.map_append, List.nodup_append] at hnd
  have hdis := hnd.2.2
  have hne : m.1 ≠ last.1 := by
    intro heq
    exact hdis (List.mem_map_of_mem Prod.fst hm) (by simp [heq])
  simp [Enum.is_back, hl, hne]

/-- The member lines of an enum whose member names are distinct and whose
members are `init` followed by `last`. -/
theorem Enum.value_lines_of_nodup (g : Globals) (e : Enum) (init : List (String × Int))
    (last : String × Int) (hs : e.values = init ++ [last])
    (hnd : (e.values.map Prod.fst).Nodup) :
    (e.values.map (e.value_lines g)).flatten
      = init.map (fun m => Line.enum_val_eq e.name m.1 m.2)
        ++ (if e.name ∈ g.extendible_enums then
              [Line.enum_append_comment, Line.enum_val_ge e.name last.1 last.2]
            else [Line.enum_val_eq e.name last.1 last.2]) := by
  obtain ⟨h1, h2⟩ := e.value_is_back_of_nodup init last hs hnd
  conv_lhs => rw [hs]
  rw [List.map_append, List.flatten_append]
  congr 1
  · have : init.map (e.value_lines g)
        = init.map (fun m => [Line.enum_val_eq e.name m.1 m.2]) := by
      apply List.map_congr_left
      intro m hm
      simp [Enum.value_lines, h1 m hm]
    rw [this]
    clear this h1 hs
    induction init with
    | nil => rfl
    | cons a init ih => simp [ih]
  · simp [Enum.value_lines, h2]

/-- Claim C2. For an enum record (member names distinct), `Enum::print` writes a
blank line, then for every member, in declaration order, exactly one assertion
line, then two newlines. The line of every member but the last is
`ABI_CHECK_ENUM_VAL_EQ(enum, member, value)`. The line of the last member is
`ABI_CHECK_ENUM_VAL_GE(enum, member, value)`, preceded by the append comment,
when the enum's name is in the growable set, and
`ABI_CHECK_ENUM_VAL_EQ(enum, member, value)` when it is not. -/
theorem Enum.print_members (g : Globals) (e : Enum)
    (hnd : (e.values.map Prod.fst).Nodup) :
    (e.print g).file
      = [Line.blank]
        ++ e.values.dropLast.map (fun m => Line.enum_val_eq e.name m.1 m.2)
        ++ (match e.values.getLast? with
            | none => []
            | some m =>
                if e.name ∈ g.extendible_enums then
                  [Line.enum_append_comment, Line.enum_val_ge e.name m.1 m.2]
                else [Line.enum_val_eq e.name m.1 m.2])
        ++ [Line.blank2] := by
  rw [Enum.print_file_values]
  rcases List.eq_nil_or_concat e.values with h | ⟨init, last, h⟩
  · simp [h]
  · rw [List.concat_eq_append] at h
    rw [Enum.value_lines_of_nodup g e init last h hnd]
    simp [h]

/-- The scenario of the specification: the growable enum `Bar` with `X = 1`
and `Y = 2`; and the same enum under the source's policy sets, where `Bar` is
not growable. -/
theorem Enum.print_members_witness :
    (scenario_bar.print bar_globals).file
        = [Line.blank, Line.enum_val_eq "Bar" "X" 1, Line.enum_append_comment,
           Line.enum_val_ge "Bar" "Y" 2, Line.blank2]
    ∧ (scenario_bar.print scenario_globals).file
        = [Line.blank, Line.enum_val_eq "Bar" "X" 1, Line.enum_val_eq "Bar" "Y" 2,
           Line.blank2]
    ∧ file_text (scenario_bar.print bar_globals).file
        = "\nABI_CHECK_ENUM_VAL_EQ(Bar, X, 1);\n// Appending to the end of this enum is okay.\nABI_CHECK_ENUM_VAL_GE(Bar, Y, 2);\n\n\n" :=
  ⟨Enum.print_members bar_globals scenario_bar (by decide),
   Enum.print_members scenario_globals scenario_bar (by decide), by decide⟩

/-- Claim C8. Let `e` be a non-empty enum whose name is in the growable set and
`e'` the enum obtained by appending one member `m` with a new name (member
names distinct). In the output for `e` every member but the last has its
`ABI_CHECK_ENUM_VAL_EQ` line and the last has `ABI_CHECK_ENUM_VAL_GE`. In the
output for `e'` the same `ABI_CHECK_ENUM_VAL_EQ` lines come first, then the
former last member with `ABI_CHECK_ENUM_VAL_EQ` and its value, then `m` with
`ABI_CHECK_ENUM_VAL_GE`. -/
theorem Enum.append_only (g : Globals) (e : Enum) (m : String × Int)
    (hname : e.name ∈ g.extendible_enums) (hne : e.values ≠ [])
    (hnd : ((e.values ++ [m]).map Prod.fst).Nodup) :
    (e.print g).file
        = [Line.blank]
          ++ e.values.dropLast.map (fun x => Line.enum_val_eq e.name x.1 x.2)
          ++ [Line.enum_append_comment,
              Line.enum_val_ge e.name (e.values.getLast hne).1 (e.values.getLast hne).2]
          ++ [Line.blank2]
    ∧ (Enum.print g { e with values := e.values ++ [m] }).file
        = [Line.blank]
          ++ e.values.dropLast.map (fun x => Line.enum_val_eq e.name x.1 x.2)
          ++ [Line.enum_val_eq e.name (e.values.getLast hne).1 (e.values.getLast hne).2]
          ++ [Line.enum_append_comment, Line.enum_val_ge e.name m.1 m.2]
          ++ [Line.blank2] := by
  have hnde : (e.values.map Prod.fst).Nodup := by
    rw [List.map_append, List.nodup_append] at hnd
    exact hnd.1
  have hsplit : e.values = e.values.dropLast ++ [e.values.getLast hne] :=
    (List.dropLast_append_getLast hne).symm
  constructor
  · rw [Enum.print_file_values, Enum.value_lines_of_nodup g e _ _ hsplit hnde]
    simp [hname]
  · rw [Enum.print_file_values,
      Enum.value_lines_of_nodup g { e with values := e.values ++ [m] } e.values m rfl hnd]
    simp only [hname, if_true]
    conv_lhs => rw [hsplit]
    simp

/-- The growable enum `Bar` of the scenario, grown by `Z = 3`. -/
theorem Enum.append_only_witness :
    (scenario_bar.print bar_globals).file
        = [Line.blank, Line.enum_val_eq "Bar" "X" 1, Line.enum_append_comment,
           Line.enum_val_ge "Bar" "Y" 2, Line.blank2]
    ∧ (Enum.print bar_globals
          { scenario_bar with values := scenario_bar.values ++ [("Z", 3)] }).file
        = [Line.blank, Line.enum_val_eq "Bar" "X" 1, Line.enum_val_eq "Bar" "Y" 2,
           Line.enum_append_comment, Line.enum_val_ge "Bar" "Z" 3, Line.blank2] :=
  Enum.append_only bar_globals scenario_bar ("Z", 3) (by decide) (by decide) (by decide)

/-! ## Macros -/

theorem strchr_eq_dropWhile (s : List Char) (c : Char) (h : c ∈ s) :
    strchr s c = some (s.dropWhile (fun x => x != c)) := by
  induction s with
  | nil => simp at h
  | cons a s ih =>
    by_cases hac : a = c
    · simp [strchr, hac, List.dropWhile_cons]
    · have hmem : c ∈ s := by
        rcases List.mem_cons.mp h with h' | h'
        · exact absurd h'.symm hac
        · exact h'
      simp [strchr, hac, List.dropWhile_cons, ih hmem]

theorem strchr_eq_none (s : List Char) (c : Char) (h : c ∉ s) : strchr s c = none := by
  induction s with
  | nil => rfl
  | cons a s ih =>
    rw [List.mem_cons, not_or] at h
    have hac : ¬ a = c := fun e => h.1 e.symm
    simp [strchr, hac, ih h.2]

theorem skip_spaces_eq_dropWhile (s : List Char) :
    skip_spaces s = s.dropWhile (fun x => x == ' ') := by
  induction s with
  | nil => rfl
  | cons a s ih =>
    by_cases ha : a = ' '
    · simp [skip_spaces, ha, List.dropWhile_cons, ih]
    · simp [skip_spaces, ha, List.dropWhile_cons]

theorem take_length_sub_dropWhile (p : Char → Bool) (s : List Char) :
    s.take (s.length - (s.dropWhile p).length) = s.takeWhile p := by
  induction s with
  | nil => rfl
  | cons a s ih =>
    by_cases ha : p a = true
    · have hle : (s.dropWhile p).length ≤ s.length :=
        (List.dropWhile_sublist p).length_le
      have : s.length + 1 - (s.dropWhile p).length
          = (s.length - (s.dropWhile p).length) + 1 := by omega
      simp [List.dropWhile_cons, List.takeWhile_cons, ha, this, ih]
    · simp [List.dropWhile_cons, List.takeWhile_cons, ha]

/-- Claim C3. For a definition text that contains a space, the `Macro`
constructor sets `name` to the characters before the first space and `value` to
what follows them once all leading spaces are dropped; whatever the policy
sets, `print` writes the single line `#define name value`, whose text holds the
value as it stands. -/
theorem Macro.of_text_print (d : String) (hsp : ' ' ∈ d.data) :
    (Macro.of_text d).name.data = d.data.takeWhile (fun c => c != ' ')
    ∧ (Macro.of_text d).value.data
        = (d.data.dropWhile (fun c => c != ' ')).dropWhile (fun c => c == ' ')
    ∧ ∀ g : Globals,
        (AbiChecked.print g (.macro_obj (Macro.of_text d))).file
            = [Line.define (Macro.of_text d).name (Macro.of_text d).value]
        ∧ file_text (AbiChecked.print g (.macro_obj (Macro.of_text d))).file
            = "#define " ++ (Macro.of_text d).name ++ " " ++ (Macro.of_text d).value ++ "\n" := by
  have h : Macro.of_text d
      = { name := ⟨d.data.takeWhile (fun c => c != ' ')⟩
          value := ⟨(d.data.dropWhile (fun c => c != ' ')).dropWhile (fun c => c == ' ')⟩ } := by
    unfold Macro.of_text
    rw [strchr_eq_dropWhile _ _ hsp]
    simp only [skip_spaces_eq_dropWhile, take_length_sub_dropWhile]
  refine ⟨by rw [h], by rw [h], fun g => ⟨rfl, ?_⟩⟩
  simp [AbiChecked.print, AbiChecked.print_from, Macro.print_from, file_text, Line.text,
    Out.emit]

/-- The scenario of the specification: the definition `FOO 1+2`; and a
definition with several spaces after the name. -/
theorem Macro.of_text_print_witness :
    Macro.of_text "FOO 1+2" = { name := "FOO", value := "1+2" }
    ∧ file_text (AbiChecked.print scenario_globals (.macro_obj (Macro.of_text "FOO 1+2"))).file
        = "#define FOO 1+2\n"
    ∧ Macro.of_text "DRF(x)   (x << 2)" = { name := "DRF(x)", value := "(x << 2)" }
    ∧ (Macro.of_text "FOO 1+2").name.data = ['F', 'O', 'O']
    ∧ (Macro.of_text "FOO 1+2").value.data = ['1', '+', '2'] :=
  ⟨by decide, by decide, by decide,
   (Macro.of_text_print "FOO 1+2" (by decide)).1,
   (Macro.of_text_print "FOO 1+2" (by decide)).2.1⟩

/-! ## The allow-list -/

theorem strncmp_eq_zero_iff (pfx name : List Char) :
    strncmp name pfx pfx.length = 0 ↔ pfx <+: name := by
  induction pfx generalizing name with
  | nil => simp [strncmp]
  | cons b pfx ih =>
    cases name with
    | nil => simp [strncmp]
    | cons a name =>
      by_cases hab : a = b
      · subst hab
        simp [strncmp, ih, List.cons_prefix_cons]
      · have hne : ¬ b = a := fun e => hab e.symm
        by_cases hlt : a < b <;> simp [strncmp, hab, hne, hlt, List.cons_prefix_cons]

theorem is_wanted_scan_iff (name : String) (ps : List String) :
    is_wanted_scan name ps = true ↔ ∃ p ∈ ps, p.data <+: name.data := by
  induction ps with
  | nil => simp [is_wanted_scan]
  | cons p ps ih =>
    have hlen : p.length = p.data.length := rfl
    by_cases h : strncmp name.data p.data p.length = 0
    · have hp : p.data <+: name.data := (strncmp_eq_zero_iff _ _).mp (hlen ▸ h)
      simp [is_wanted_scan, h, hp]
    · have hp : ¬ p.data <+: name.data :=
        fun hp => h (hlen ▸ (strncmp_eq_zero_iff _ _).mpr hp)
      simp [is_wanted_scan, h, ih, hp]

/-- Claim C4. `is_wanted(name)` is true exactly when `name` is in the exact set
or some string of the prefix list is a prefix of `name`; with the prefix list
in any other order the result is the same. -/
theorem is_wanted_iff (g : Globals) (name : String) (ps : List String)
    (hperm : ps.Perm g.wanted_prefix) :
    (is_wanted g name = true
        ↔ name ∈ g.wanted ∨ ∃ p ∈ g.wanted_prefix, p.data <+: name.data)
    ∧ is_wanted { g with wanted_prefix := ps } name = is_wanted g name := by
  have key : ∀ g' : Globals, is_wanted g' name = true
      ↔ name ∈ g'.wanted ∨ ∃ p ∈ g'.wanted_prefix, p.data <+: name.data := by
    intro g'
    unfold is_wanted
    by_cases h : name ∈ g'.wanted
    · simp [h]
    · simp [h, is_wanted_scan_iff]
  refine ⟨key g, ?_⟩
  rw [Bool.eq_iff_iff, key, key]
  simp only [hperm.mem_iff]

/-- A name matched by the second of two prefixes, with the prefixes in both
orders; an exact name; a name that matches nothing. -/
theorem is_wanted_iff_witness :
    (is_wanted ⟨["Foo"], ["rpc_", "NV_VGPU_MSG_"], [], []⟩ "NV_VGPU_MSG_EVENT_X" = true
        ↔ "NV_VGPU_MSG_EVENT_X" ∈ ["Foo"]
          ∨ ∃ p ∈ ["rpc_", "NV_VGPU_MSG_"], p.data <+: "NV_VGPU_MSG_EVENT_X".data)
    ∧ is_wanted ⟨["Foo"], ["NV_VGPU_MSG_", "rpc_"], [], []⟩ "NV_VGPU_MSG_EVENT_X"
        = is_wanted ⟨["Foo"], ["rpc_", "NV_VGPU_MSG_"], [], []⟩ "NV_VGPU_MSG_EVENT_X"
    ∧ is_wanted ⟨["Foo"], ["rpc_", "NV_VGPU_MSG_"], [], []⟩ "NV_VGPU_MSG_EVENT_X" = true
    ∧ is_wanted ⟨["Foo"], ["rpc_", "NV_VGPU_MSG_"], [], []⟩ "Foo" = true
    ∧ is_wanted ⟨["Foo"], ["rpc_", "NV_VGPU_MSG_"], [], []⟩ "NV_VGPU" = false :=
  ⟨(is_wanted_iff ⟨["Foo"], ["rpc_", "NV_VGPU_MSG_"], [], []⟩ "NV_VGPU_MSG_EVENT_X"
      ["NV_VGPU_MSG_", "rpc_"] (List.Perm.swap _ _ _)).1,
   (is_wanted_iff ⟨["Foo"], ["rpc_", "NV_VGPU_MSG_"], [], []⟩ "NV_VGPU_MSG_EVENT_X"
      ["NV_VGPU_MSG_", "rpc_"] (List.Perm.swap _ _ _)).2,
   by decide, by decide, by decide⟩

/-! ## The catalog -/

theorem Catalog.keys_set (all : Catalog) (k : String) (v : AbiChecked) :
    ∀ x ∈ (all.set k v).keys, x = k ∨ x ∈ all.keys := by
  induction all with
  | nil => intro x hx; simpa [Catalog.set, Catalog.keys] using hx
  | cons kv rest ih =>
    obtain ⟨k', v'⟩ := kv
    intro x hx
    unfold Catalog.set at hx
    split at hx
    · simpa [Catalog.keys] using hx
    · split at hx
      · rename_i heq
        simp only [Catalog.keys, List.map_cons, List.mem_cons, List.mem_map] at hx ⊢
        rcases hx with hx | hx
        · exact Or.inl hx
        · exact Or.inr (Or.inr hx)
      · simp only [Catalog.keys, List.map_cons, List.mem_cons] at hx ⊢
        rcases hx with hx | hx
        · exact Or.inr (Or.inl hx)
        · rcases ih x hx with h | h
          · exact Or.inl h
          · exact Or.inr (Or.inr h)

theorem Catalog.find_set_ne (all : Catalog) (k name : String) (v : AbiChecked)
    (hne : k ≠ name) : (all.set k v).find name = all.find name := by
  have hne' : ¬ name = k := fun e => hne e.symm
  induction all with
  | nil => simp [Catalog.set, Catalog.find, hne']
  | cons kv rest ih =>
    obtain ⟨k', v'⟩ := kv
    unfold Catalog.set
    split
    · simp [Catalog.find, hne']
    · split
      · rename_i heq
        subst heq
        simp [Catalog.find, hne']
      · by_cases h : name = k' <;> simp [Catalog.find, h, ih]

theorem finish_type_callback_named (g : Globals) (tc : TreeCodes) (all : Catalog)
    (type : TypeTree) (type_name : String) (hn : type.TYPE_NAME = some type_name) :
    finish_type_callback g tc all (some type)
      = if is_wanted g type_name = true ∧ all.count type_name = 0 then
          if type.code = tc.RECORD_TYPE then
            if (Struct.of_tree type).size = SIZE_MAX then all
            else all.set type_name (.struct_obj (Struct.of_tree type))
          else if type.code = tc.ENUMERAL_TYPE then
            all.set type_name (.enum_obj (Enum.of_tree tc type))
          else all
        else all := by
  simp only [finish_type_callback, hn]

theorem finish_type_callback_unnamed (g : Globals) (tc : TreeCodes) (all : Catalog)
    (type : TypeTree) (hn : type.TYPE_NAME = none) :
    finish_type_callback g tc all (some type) = all := by
  simp only [finish_type_callback, hn]

theorem finish_type_callback_keys (g : Globals) (tc : TreeCodes) (all : Catalog)
    (ev : Option TypeTree) (hall : ∀ k ∈ all.keys, is_wanted g k = true) :
    ∀ k ∈ (finish_type_callback g tc all ev).keys, is_wanted g k = true := by
  cases ev with
  | none => exact hall
  | some type =>
    cases hn : type.TYPE_NAME with
    | none => rw [finish_type_callback_unnamed g tc all type hn]; exact hall
    | some type_name =>
      rw [finish_type_callback_named g tc all type type_name hn]
      split
      · rename_i hw
        have hset : ∀ v, ∀ k ∈ (all.set type_name v).keys, is_wanted g k = true := by
          intro v k hk
          rcases Catalog.keys_set all type_name v k hk with h | h
          · rw [h]; exact hw.1
          · exact hall k h
        split
        · split
          · exact hall
          · exact hset _
        · split
          · exact hset _
          · exact hall
      · exact hall

theorem macro_callback_keys (g : Globals) (all : Catalog) (node : Option CppNode)
    (hall : ∀ k ∈ all.keys, is_wanted g k = true) :
    ∀ k ∈ (macro_callback g all node).keys, is_wanted g k = true := by
  unfold macro_callback
  cases node with
  | none => exact hall
  | some n =>
    simp only
    split
    · split
      · rename_i hw
        intro k hk
        rcases Catalog.keys_set all n.NODE_NAME _ k hk with h | h
        · rw [h]; exact hw.1
        · exact hall k h
      · exact hall
    · exact hall

theorem collect_from_keys (g : Globals) (tc : TreeCodes) (events : List (Option TypeTree))
    (all : Catalog) (hall : ∀ k ∈ all.keys, is_wanted g k = true) :
    ∀ k ∈ (events.foldl (finish_type_callback g tc) all).keys, is_wanted g k = true := by
  induction events generalizing all with
  | nil => exact hall
  | cons ev events ih =>
    exact ih _ (finish_type_callback_keys g tc all ev hall)

theorem macro_scan_keys (g : Globals) (nodes : List (Option CppNode))
    (all : Catalog) (hall : ∀ k ∈ all.keys, is_wanted g k = true) :
    ∀ k ∈ (macro_scan g all nodes).keys, is_wanted g k = true := by
  unfold macro_scan
  induction nodes generalizing all with
  | nil => exact hall
  | cons n nodes ih =>
    exact ih _ (macro_callback_keys g all n hall)

/-- Claim C9. Starting from the empty catalog, after any sequence of
declaration-finalized events, and after the end-of-unit callback with any
macro table on top of them, every key of the catalog satisfies `is_wanted`. -/
theorem allow_list_closure (g : Globals) (tc : TreeCodes)
    (events : List (Option TypeTree)) (nodes : List (Option CppNode)) :
    (∀ k ∈ (collect g tc events).keys, is_wanted g k = true)
    ∧ ∀ k ∈ (finish_unit_callback g (collect g tc events) nodes).1.keys,
        is_wanted g k = true := by
  have h0 : ∀ k ∈ (collect g tc events).keys, is_wanted g k = true :=
    collect_from_keys g tc events [] (by simp [Catalog.keys])
  exact ⟨h0, macro_scan_keys g nodes _ h0⟩

/-- A run with a whitelisted struct, a struct outside the allow-list, a
whitelisted enum, and a macro table: the catalog holds `Bar`, `FOO` and `Foo`,
each of which is wanted. -/
theorem allow_list_closure_witness :
    (finish_unit_callback scenario_globals
        (collect scenario_globals example_codes
          [some foo_tree, some other_tree, none, some bar_tree]) example_nodes).1.keys
      = ["Bar", "FOO", "Foo"]
    ∧ is_wanted scenario_globals "FOO" = true
    ∧ is_wanted scenario_globals "Other" = false :=
  ⟨by decide,
   (allow_list_closure scenario_globals example_codes
      [some foo_tree, some other_tree, none, some bar_tree] example_nodes).2 "FOO" (by decide),
   by decide⟩

theorem finish_type_callback_find (g : Globals) (tc : TreeCodes) (all : Catalog)
    (ev : Option TypeTree) (name : String) (h : all.count name ≠ 0) :
    (finish_type_callback g tc all ev).find name = all.find name := by
  cases ev with
  | none => rfl
  | some type =>
    cases hn : type.TYPE_NAME with
    | none => rw [finish_type_callback_unnamed g tc all type hn]
    | some type_name =>
      rw [finish_type_callback_named g tc all type type_name hn]
      split
      · rename_i hw
        have hne : type_name ≠ name := fun e => h (e ▸ hw.2)
        split
        · split
          · rfl
          · exact Catalog.find_set_ne all _ _ _ hne
        · split
          · exact Catalog.find_set_ne all _ _ _ hne
          · rfl
      · rfl

theorem macro_callback_find (g : Globals) (all : Catalog) (node : Option CppNode)
    (name : String) (h : all.count name ≠ 0) :
    (macro_callback g all node).find name = all.find name := by
  unfold macro_callback
  cases node with
  | none => rfl
  | some n =>
    simp only
    split
    · split
      · rename_i hw
        exact Catalog.find_set_ne all _ _ _ (fun e => h (e ▸ hw.2))
      · rfl
    · rfl

theorem Catalog.count_congr (a b : Catalog) (name : String)
    (h : a.find name = b.find name) : a.count name = b.count name := by
  unfold Catalog.count
  rw [h]

theorem collect_from_find (g : Globals) (tc : TreeCodes) (events : List (Option TypeTree))
    (all : Catalog) (name : String) (h : all.count name ≠ 0) :
    (events.foldl (finish_type_callback g tc) all).find name = all.find name := by
  induction events generalizing all with
  | nil => rfl
  | cons ev events ih =>
    have hstep := finish_type_callback_find g tc all ev name h
    rw [List.foldl_cons, ih _ (by rw [Catalog.count_congr _ _ _ hstep]; exact h), hstep]

theorem macro_scan_find (g : Globals) (nodes : List (Option CppNode))
    (all : Catalog) (name : String) (h : all.count name ≠ 0) :
    (macro_scan g all nodes).find name = all.find name := by
  unfold macro_scan
  induction nodes generalizing all with
  | nil => rfl
  | cons n nodes ih =>
    have hstep := macro_callback_find g all n name h
    rw [List.foldl_cons, ih _ (by rw [Catalog.count_congr _ _ _ hstep]; exact h), hstep]

/-- Claim C10. Once `name` is in the catalog, a declaration-finalized event for a
type of that name, of whatever kind, leaves the whole catalog as it is, and so
does a macro-table entry of that name; and after any further events and any
macro scan the record stored under `name` is still the same. -/
theorem first_occurrence_wins (g : Globals) (tc : TreeCodes) (all : Catalog)
    (name : String) (hin : all.count name ≠ 0) :
    (∀ t : TypeTree, t.TYPE_NAME = some name →
        finish_type_callback g tc all (some t) = all)
    ∧ (∀ n : CppNode, n.NODE_NAME = name → macro_callback g all (some n) = all)
    ∧ ∀ (events : List (Option TypeTree)) (nodes : List (Option CppNode)),
        (finish_unit_callback g (events.foldl (finish_type_callback g tc) all) nodes).1.find name
          = all.find name := by
  refine ⟨?_, ?_, ?_⟩
  · intro t ht
    simp [finish_type_callback, ht, hin]
  · intro n hn
    simp [macro_callback, hn, hin]
  · intro events nodes
    have h1 := collect_from_find g tc events all name hin
    have h2 := macro_scan_find g nodes _ name
      (by rw [Catalog.count_congr _ _ _ h1]; exact hin)
    simp only [finish_unit_callback]
    rw [h2, h1]

/-- With the struct `Foo` cataloged first, a later enum named `Foo` and a
macro named `Foo` change nothing, and after a run with both the entry of `Foo`
is still the struct. -/
theorem first_occurrence_wins_witness :
    collect scenario_globals example_codes [some foo_tree] = [("Foo", .struct_obj scenario_foo)]
    ∧ finish_type_callback scenario_globals example_codes [("Foo", .struct_obj scenario_foo)]
        (some foo_enum_tree) = [("Foo", .struct_obj scenario_foo)]
    ∧ macro_callback scenario_globals [("Foo", .struct_obj scenario_foo)]
        (some ⟨"Foo", true, "Foo 7"⟩) = [("Foo", .struct_obj scenario_foo)]
    ∧ (finish_unit_callback scenario_globals
          ([some foo_enum_tree, some bar_tree].foldl
            (finish_type_callback scenario_globals example_codes)
            [("Foo", .struct_obj scenario_foo)]) example_nodes).1.find "Foo"
        = some (.struct_obj scenario_foo) :=
  ⟨by decide,
   (first_occurrence_wins scenario_globals example_codes [("Foo", .struct_obj scenario_foo)]
      "Foo" (by decide)).1 foo_enum_tree rfl,
   (first_occurrence_wins scenario_globals example_codes [("Foo", .struct_obj scenario_foo)]
      "Foo" (by decide)).2.1 ⟨"Foo", true, "Foo 7"⟩ rfl,
   (first_occurrence_wins scenario_globals example_codes [("Foo", .struct_obj scenario_foo)]
      "Foo" (by decide)).2.2 [some foo_enum_tree, some bar_tree] example_nodes⟩

/-! ## Struct extraction -/

theorem Struct.foldl_push_field (fds : List FieldDecl) (acc : List Field) :
    fds.foldl Struct.push_field acc
      = acc ++ fds.filterMap (fun fd => fd.DECL_NAME.map (fun n => Field.of_decl n fd)) := by
  induction fds generalizing acc with
  | nil => simp
  | cons fd fds ih =>
    rw [List.foldl_cons, ih]
    cases hn : fd.DECL_NAME with
    | none => simp [Struct.push_field, hn, List.filterMap_cons]
    | some n => simp [Struct.push_field, hn, List.filterMap_cons, Field.of_decl]

theorem Struct.of_tree_fields (t : TypeTree) :
    (Struct.of_tree t).fields
      = t.TYPE_FIELDS.filterMap (fun fd => fd.DECL_NAME.map (fun n => Field.of_decl n fd)) := by
  simp [Struct.of_tree, Struct.foldl_push_field]

theorem to_size_t_of_size (v : Int) (h0 : 0 ≤ v) (h1 : v < 18446744073709551616) :
    ((to_size_t v : Nat) : Int) = v := by
  unfold to_size_t
  omega

theorem to_size_t_neg_one : to_size_t (-1) = SIZE_MAX := by decide

/-- Claim C17. The fields of the record built by the `Struct` constructor are,
in declaration order, the field declarations that have a name, each with that
name, the size `int_size_in_bytes` reports (as a `size_t`: a size in range is
kept as it is, `-1` becomes `~0`) and the byte position the front-end reports;
the declarations without a name are skipped, and the record is the same as the
one built from the named declarations alone. -/
theorem Struct.of_tree_named_fields (t : TypeTree) :
    (Struct.of_tree t).fields
        = (t.TYPE_FIELDS.filter (fun fd => fd.DECL_NAME.isSome)).map
            (fun fd =>
              { name := IDENTIFIER_POINTER fd.DECL_NAME
                size := to_size_t fd.int_size_in_bytes
                offset := fd.byte_position % 18446744073709551616 })
    ∧ Struct.of_tree { t with TYPE_FIELDS := t.TYPE_FIELDS.filter (fun fd => fd.DECL_NAME.isSome) }
        = Struct.of_tree t
    ∧ (∀ f ∈ (Struct.of_tree t).fields, ∃ fd ∈ t.TYPE_FIELDS,
        fd.DECL_NAME = some f.name
        ∧ (0 ≤ fd.int_size_in_bytes ∧ fd.int_size_in_bytes < 18446744073709551616
            → (f.size : Int) = fd.int_size_in_bytes)
        ∧ (fd.int_size_in_bytes = -1 → f.size = SIZE_MAX)
        ∧ (fd.byte_position < 18446744073709551616 → f.offset = fd.byte_position)) := by
  have hfields : ∀ fds : List FieldDecl,
      fds.filterMap (fun fd => fd.DECL_NAME.map (fun n => Field.of_decl n fd))
        = (fds.filter (fun fd => fd.DECL_NAME.isSome)).map
            (fun fd =>
              { name := IDENTIFIER_POINTER fd.DECL_NAME
                size := to_size_t fd.int_size_in_bytes
                offset := fd.byte_position % 18446744073709551616 }) := by
    intro fds
    induction fds with
    | nil => rfl
    | cons fd fds ih =>
      cases hn : fd.DECL_NAME with
      | none => simp [List.filterMap_cons, List.filter_cons, hn, ih]
      | some n =>
        have hhead : Field.of_decl n fd
            = { name := IDENTIFIER_POINTER fd.DECL_NAME
                size := to_size_t fd.int_size_in_bytes
                offset := fd.byte_position % 18446744073709551616 } := by
          simp [Field.of_decl, IDENTIFIER_POINTER, hn]
        rw [List.filterMap_cons, List.filter_cons]
        simp only [hn, Option.map_some', Option.isSome_some, if_true, List.map_cons]
        rw [ih, hhead, hn]
  refine ⟨by rw [Struct.of_tree_fields, hfields], ?_, ?_⟩
  · have h1 := Struct.of_tree_fields t
    have h2 := Struct.of_tree_fields
      { t with TYPE_FIELDS := t.TYPE_FIELDS.filter (fun fd => fd.DECL_NAME.isSome) }
    rw [hfields] at h1 h2
    simp only [List.filter_filter, Bool.and_self] at h2
    have hfe : (Struct.of_tree
        { t with TYPE_FIELDS := t.TYPE_FIELDS.filter (fun fd => fd.DECL_NAME.isSome) }).fields
        = (Struct.of_tree t).fields := by rw [h1, h2]
    simp only [Struct.of_tree] at hfe ⊢
    rw [hfe]
  · intro f hf
    rw [Struct.of_tree_fields, List.mem_filterMap] at hf
    obtain ⟨fd, hfd, hmap⟩ := hf
    cases hn : fd.DECL_NAME with
    | none => simp [hn] at hmap
    | some n =>
      simp only [hn, Option.map_some', Option.some.injEq] at hmap
      subst hmap
      refine ⟨fd, hfd, by simp [Field.of_decl, hn], ?_, ?_, ?_⟩
      · intro hr
        exact to_size_t_of_size _ hr.1 hr.2
      · intro hm
        simp [Field.of_decl, hm, to_size_t_neg_one]
      · intro hb
        simp [Field.of_decl, Nat.mod_eq_of_lt hb]

/-- The struct `Gap` with an unnamed declaration between `a` and `hole`: the
record holds `a`, `hole` and `b`, and `hole` has the size `~0`. -/
theorem Struct.of_tree_named_fields_witness :
    (Struct.of_tree gap_tree).fields
        = [⟨"a", 4, 0⟩, ⟨"hole", SIZE_MAX, 4⟩, ⟨"b", 4, 8⟩]
    ∧ ∃ fd ∈ gap_tree.TYPE_FIELDS, fd.DECL_NAME = some "hole"
        ∧ (0 ≤ fd.int_size_in_bytes ∧ fd.int_size_in_bytes < 18446744073709551616
            → ((⟨"hole", SIZE_MAX, 4⟩ : Field).size : Int) = fd.int_size_in_bytes)
        ∧ (fd.int_size_in_bytes = -1 → (⟨"hole", SIZE_MAX, 4⟩ : Field).size = SIZE_MAX)
        ∧ (fd.byte_position < 18446744073709551616
            → (⟨"hole", SIZE_MAX, 4⟩ : Field).offset = fd.byte_position) :=
  ⟨by decide,
   (Struct.of_tree_named_fields gap_tree).2.2 ⟨"hole", SIZE_MAX, 4⟩ (by decide)⟩

/-! ## What a `print` call adds to the streams -/

theorem Struct.print_field_err (s : Struct) (o : Out) (f : Field) :
    (s.print_field o f).err = o.err ++ s.field_warnings f := by
  unfold Struct.print_field Struct.field_warnings
  by_cases h1 : f.size = SIZE_MAX <;> by_cases h2 : s.is_back f = true <;> simp [h1, h2]

theorem Struct.foldl_print_field_err (s : Struct) (fs : List Field) (o : Out) :
    (fs.foldl s.print_field o).err = o.err ++ (fs.map s.field_warnings).flatten := by
  induction fs generalizing o with
  | nil => simp
  | cons f fs ih => simp [List.foldl_cons, ih, Struct.print_field_err]

theorem Struct.print_from_file_of_struct (g : Globals) (s : Struct) (o : Out) :
    (s.print_from g o).file = o.file ++ (s.print g).file := by
  unfold Struct.print Struct.print_from
  by_cases h : s.name ∈ g.flexible <;> simp [h, Struct.foldl_print_field_file]

theorem Struct.print_from_err_of_struct (g : Globals) (s : Struct) (o : Out) :
    (s.print_from g o).err = o.err ++ (s.fields.map s.field_warnings).flatten := by
  unfold Struct.print_from
  by_cases h : s.name ∈ g.flexible <;> simp [h, Struct.foldl_print_field_err]

theorem Struct.print_err (g : Globals) (s : Struct) :
    (s.print g).err = (s.fields.map s.field_warnings).flatten := by
  simp [Struct.print, Struct.print_from_err_of_struct]

theorem Enum.print_value_err (g : Globals) (e : Enum) (o : Out) (m : String × Int) :
    (e.print_value g o m).err = o.err := by
  unfold Enum.print_value
  split <;> simp

theorem Enum.foldl_print_value_err (g : Globals) (e : Enum) (ms : List (String × Int))
    (o : Out) : (ms.foldl (e.print_value g) o).err = o.err := by
  induction ms generalizing o with
  | nil => rfl
  | cons m ms ih => simp [List.foldl_cons, ih, Enum.print_value_err]

theorem Enum.print_from_file_of_enum (g : Globals) (e : Enum) (o : Out) :
    (e.print_from g o).file = o.file ++ (e.print g).file := by
  unfold Enum.print Enum.print_from
  simp [Enum.foldl_print_value_file]

theorem Enum.print_from_err_of_enum (g : Globals) (e : Enum) (o : Out) :
    (e.print_from g o).err = o.err := by
  unfold Enum.print_from
  simp [Enum.foldl_print_value_err]

theorem AbiChecked.print_from_file (g : Globals) (a : AbiChecked) (o : Out) :
    (a.print_from g o).file = o.file ++ (a.print g).file := by
  cases a with
  | struct_obj s => exact Struct.print_from_file_of_struct g s o
  | macro_obj m => simp [AbiChecked.print_from, AbiChecked.print, Macro.print_from]
  | enum_obj e => exact Enum.print_from_file_of_enum g e o

theorem AbiChecked.print_from_err (g : Globals) (a : AbiChecked) (o : Out) :
    (a.print_from g o).err = o.err ++ (a.print g).err := by
  cases a with
  | struct_obj s =>
    simp [AbiChecked.print_from, AbiChecked.print, Struct.print_from_err_of_struct]
  | macro_obj m => simp [AbiChecked.print_from, AbiChecked.print, Macro.print_from]
  | enum_obj e => simp [AbiChecked.print_from, AbiChecked.print, Enum.print_from_err_of_enum]

/-! ## Fields of unresolved size -/

/-- Claim C18. Let a field declaration of a struct have a name and no
computable size (`int_size_in_bytes` is `-1`), and let the last recorded field
bear another name. Then the constructor records the field with the size `~0`;
`Struct::print` on the record writes the warning `Failed to get size for
struct.field`, and its output is complete: the header, one line for every
recorded field in order, and a blank line, the line of the unresolved field
being `ABI_CHECK_FIELD(struct, field, offset, size)` with the size `~0`. -/
theorem Struct.unresolved_field_degraded (g : Globals) (t : TypeTree) (fd : FieldDecl)
    (n : String) (hfd : fd ∈ t.TYPE_FIELDS) (hn : fd.DECL_NAME = some n)
    (hsz : fd.int_size_in_bytes = -1)
    (hnl : ∀ l, (Struct.of_tree t).fields.getLast? = some l → l.name ≠ n) :
    (⟨n, SIZE_MAX, fd.byte_position % 18446744073709551616⟩ : Field)
        ∈ (Struct.of_tree t).fields
    ∧ ("WARNING: " ++ ("Failed to get size for " ++ (Struct.of_tree t).name ++ "." ++ n ++ "\n"))
        ∈ ((Struct.of_tree t).print g).err
    ∧ Line.field (Struct.of_tree t).name n (fd.byte_position % 18446744073709551616) SIZE_MAX
        ∈ ((Struct.of_tree t).print g).file
    ∧ ((Struct.of_tree t).print g).file
        = [Line.blank]
          ++ (if (Struct.of_tree t).name ∈ g.flexible then
                [Line.struct_append_comment,
                 Line.size_ge (Struct.of_tree t).name (Struct.of_tree t).size]
              else [Line.size_eq (Struct.of_tree t).name (Struct.of_tree t).size])
          ++ (Struct.of_tree t).fields.map
              (fun x =>
                if x.size = SIZE_MAX ∧ (Struct.of_tree t).is_back x = true then
                  Line.field_flexible (Struct.of_tree t).name x.name x.offset
                else Line.field (Struct.of_tree t).name x.name x.offset x.size)
          ++ [Line.blank] := by
  have hmem : (⟨n, SIZE_MAX, fd.byte_position % 18446744073709551616⟩ : Field)
      ∈ (Struct.of_tree t).fields := by
    rw [Struct.of_tree_fields, List.mem_filterMap]
    exact ⟨fd, hfd, by simp [hn, Field.of_decl, hsz, to_size_t_neg_one]⟩
  have hback : (Struct.of_tree t).is_back
      ⟨n, SIZE_MAX, fd.byte_position % 18446744073709551616⟩ = false := by
    unfold Struct.is_back
    cases hl : (Struct.of_tree t).fields.getLast? with
    | none => rfl
    | some l =>
      have := hnl l hl
      simp [Ne.symm this]
  refine ⟨hmem, ?_, ?_, ?_⟩
  · rw [Struct.print_err, List.mem_flatten]
    refine ⟨_, List.mem_map_of_mem _ hmem, ?_⟩
    simp [Struct.field_warnings, hback]
  · rw [Struct.print_file]
    have hline : (Struct.of_tree t).field_line
        ⟨n, SIZE_MAX, fd.byte_position % 18446744073709551616⟩
        = Line.field (Struct.of_tree t).name n (fd.byte_position % 18446744073709551616)
            SIZE_MAX := by
      simp [Struct.field_line, hback]
    have := List.mem_map_of_mem (Struct.of_tree t).field_line hmem
    rw [hline] at this
    simp [this]
  · rw [Struct.print_file]
    rfl

/-- The struct `Gap`, whose field `hole` between `a` and `b` has no computable
size. -/
theorem Struct.unresolved_field_degraded_witness :
    (⟨"hole", SIZE_MAX, 4⟩ : Field) ∈ (Struct.of_tree gap_tree).fields
    ∧ "WARNING: Failed to get size for Gap.hole\n"
        ∈ ((Struct.of_tree gap_tree).print scenario_globals).err
    ∧ Line.field "Gap" "hole" 4 SIZE_MAX
        ∈ ((Struct.of_tree gap_tree).print scenario_globals).file
    ∧ ((Struct.of_tree gap_tree).print scenario_globals).file
        = [Line.blank, Line.size_eq "Gap" 12, Line.field "Gap" "a" 0 4,
           Line.field "Gap" "hole" 4 SIZE_MAX, Line.field "Gap" "b" 8 4, Line.blank]
    ∧ file_text ((Struct.of_tree gap_tree).print scenario_globals).file
        = "\nABI_CHECK_SIZE_EQ(Gap, 12);\nABI_CHECK_FIELD(Gap, a, 0, 4);\nABI_CHECK_FIELD(Gap, hole, 4, -1);\nABI_CHECK_FIELD(Gap, b, 8, 4);\n\n" :=
  ⟨(Struct.unresolved_field_degraded scenario_globals gap_tree ⟨some "hole", -1, 4⟩ "hole"
      (by decide) rfl rfl (by decide)).1,
   (Struct.unresolved_field_degraded scenario_globals gap_tree ⟨some "hole", -1, 4⟩ "hole"
      (by decide) rfl rfl (by decide)).2.1,
   (Struct.unresolved_field_degraded scenario_globals gap_tree ⟨some "hole", -1, 4⟩ "hole"
      (by decide) rfl rfl (by decide)).2.2.1,
   by decide, by decide⟩

/-! ## Macro normalisation -/

theorem Macro.of_text_of_space (d : String) (h : ' ' ∈ d.data) :
    Macro.of_text d
      = { name := ⟨d.data.takeWhile (fun c => c != ' ')⟩
          value := ⟨(d.data.dropWhile (fun c => c != ' ')).dropWhile (fun c => c == ' ')⟩ } := by
  unfold Macro.of_text
  rw [strchr_eq_dropWhile _ _ h]
  simp only [skip_spaces_eq_dropWhile, take_length_sub_dropWhile]

theorem Macro.of_text_of_no_space (d : String) (h : ' ' ∉ d.data) :
    Macro.of_text d = { name := "", value := "" } := by
  unfold Macro.of_text
  rw [strchr_eq_none _ _ h]

theorem not_space_mem_takeWhile (l : List Char) :
    ' ' ∉ l.takeWhile (fun c => c != ' ') := by
  intro h
  have := List.mem_takeWhile_imp h
  simp at this

theorem head_dropWhile_space (l : List Char) :
    (l.dropWhile (fun c => c == ' ')).head? ≠ some ' ' := by
  induction l with
  | nil => simp
  | cons a l ih =>
    by_cases ha : a = ' '
    · simpa [List.dropWhile_cons, ha] using ih
    · simp [List.dropWhile_cons, ha]

theorem takeWhile_append_space (pre rest : List Char) (h : ' ' ∉ pre) :
    (pre ++ ' ' :: rest).takeWhile (fun c => c != ' ') = pre
    ∧ (pre ++ ' ' :: rest).dropWhile (fun c => c != ' ') = ' ' :: rest := by
  induction pre with
  | nil => simp [List.takeWhile_cons, List.dropWhile_cons]
  | cons a pre ih =>
    rw [List.mem_cons, not_or] at h
    have ha : ¬ a = ' ' := fun e => h.1 e.symm
    simp [List.takeWhile_cons, List.dropWhile_cons, ha, ih h.2]

theorem dropWhile_space_of_head (rest : List Char) (h : rest.head? ≠ some ' ') :
    (' ' :: rest).dropWhile (fun c => c == ' ') = rest := by
  cases rest with
  | nil => simp [List.dropWhile_cons]
  | cons a rest =>
    have ha : ¬ a = ' ' := by simpa using h
    simp [List.dropWhile_cons, ha]

theorem Macro.of_text_shape (d : String) :
    ' ' ∉ (Macro.of_text d).name.data ∧ (Macro.of_text d).value.data.head? ≠ some ' ' := by
  by_cases h : ' ' ∈ d.data
  · rw [Macro.of_text_of_space d h]
    exact ⟨not_space_mem_takeWhile _, head_dropWhile_space _⟩
  · rw [Macro.of_text_of_no_space d h]
    exact ⟨by decide, by decide⟩

/-- Claim C20. For every definition text `d`, parsed by the `Macro` constructor
to a name and a value: the line `Macro::print` writes is `#define ` followed by
the text `name value` and a newline; the constructor parses that text `name
value` to the same name and value; the name holds no space and the value does
not begin with a space. -/
theorem Macro.of_text_idempotent (d : String) :
    (Macro.print (Macro.of_text d)).file
        = [Line.define (Macro.of_text d).name (Macro.of_text d).value]
    ∧ (Line.define (Macro.of_text d).name (Macro.of_text d).value).text
        = "#define " ++ ((Macro.of_text d).name ++ " " ++ (Macro.of_text d).value) ++ "\n"
    ∧ Macro.of_text ((Macro.of_text d).name ++ " " ++ (Macro.of_text d).value)
        = Macro.of_text d
    ∧ ' ' ∉ (Macro.of_text d).name.data
    ∧ (Macro.of_text d).value.data.head? ≠ some ' ' := by
  obtain ⟨hname, hvalue⟩ := Macro.of_text_shape d
  refine ⟨rfl, ?_, ?_, hname, hvalue⟩
  · simp [Line.text, String.append_assoc]
  · have hdata : ((Macro.of_text d).name ++ " " ++ (Macro.of_text d).value).data
        = (Macro.of_text d).name.data ++ ' ' :: (Macro.of_text d).value.data := by
      simp [String.data_append]
    have hsp : ' ' ∈ ((Macro.of_text d).name ++ " " ++ (Macro.of_text d).value).data := by
      rw [hdata]; simp
    rw [Macro.of_text_of_space _ hsp, hdata]
    obtain ⟨h1, h2⟩ := takeWhile_append_space (Macro.of_text d).name.data
      (Macro.of_text d).value.data hname
    rw [h1, h2, dropWhile_space_of_head _ hvalue]

/-- A definition with several spaces after the name: it parses to `DRF(x)` and
`(x << 2)`, and so does the text `DRF(x) (x << 2)` made of the two. -/
theorem Macro.of_text_idempotent_witness :
    Macro.of_text "DRF(x)   (x << 2)" = { name := "DRF(x)", value := "(x << 2)" }
    ∧ Macro.of_text ((Macro.of_text "DRF(x)   (x << 2)").name ++ " "
        ++ (Macro.of_text "DRF(x)   (x << 2)").value) = Macro.of_text "DRF(x)   (x << 2)" :=
  ⟨by decide, (Macro.of_text_idempotent "DRF(x)   (x << 2)").2.2.1⟩

/-! ## Where catalog entries come from -/

theorem Catalog.mem_set (all : Catalog) (k : String) (v : AbiChecked) :
    ∀ x ∈ all.set k v, x = (k, v) ∨ x ∈ all := by
  induction all with
  | nil => intro x hx; simpa [Catalog.set] using hx
  | cons kv rest ih =>
    obtain ⟨k', v'⟩ := kv
    intro x hx
    unfold Catalog.set at hx
    split at hx
    · simpa using hx
    · split at hx
      · rcases List.mem_cons.mp hx with h | h
        · exact Or.inl h
        · exact Or.inr (List.mem_cons_of_mem _ h)
      · rcases List.mem_cons.mp hx with h | h
        · exact Or.inr (h ▸ List.mem_cons_self _ _)
        · rcases ih x h with h' | h'
          · exact Or.inl h'
          · exact Or.inr (List.mem_cons_of_mem _ h')

/-- An entry of the catalog after one declaration-finalized event was there
before, or was made from the event's tree. -/
theorem finish_type_callback_entries (g : Globals) (tc : TreeCodes) (all : Catalog)
    (ev : Option TypeTree) :
    ∀ x ∈ finish_type_callback g tc all ev, x ∈ all ∨
      ∃ t, ev = some t ∧ t.TYPE_NAME = some x.1 ∧
        ((t.code = tc.RECORD_TYPE ∧ (Struct.of_tree t).size ≠ SIZE_MAX
            ∧ x.2 = .struct_obj (Struct.of_tree t))
         ∨ x.2 = .enum_obj (Enum.of_tree tc t)) := by
  intro x hx
  cases ev with
  | none => exact Or.inl hx
  | some type =>
    cases hn : type.TYPE_NAME with
    | none =>
      rw [finish_type_callback_unnamed g tc all type hn] at hx
      exact Or.inl hx
    | some type_name =>
      rw [finish_type_callback_named g tc all type type_name hn] at hx
      split at hx
      · split at hx
        · rename_i hcode
          split at hx
          · exact Or.inl hx
          · rename_i hsize
            rcases Catalog.mem_set all _ _ x hx with h | h
            · subst h
              exact Or.inr ⟨type, rfl, hn, Or.inl ⟨hcode, hsize, rfl⟩⟩
            · exact Or.inl h
        · split at hx
          · rcases Catalog.mem_set all _ _ x hx with h | h
            · subst h
              exact Or.inr ⟨type, rfl, hn, Or.inr rfl⟩
            · exact Or.inl h
          · exact Or.inl hx
      · exact Or.inl hx

/-- An entry of the catalog after one call of the macro lambda was there
before, or was made from the node. -/
theorem macro_callback_entries (g : Globals) (all : Catalog) (node : Option CppNode) :
    ∀ x ∈ macro_callback g all node, x ∈ all ∨
      ∃ n, node = some n ∧ n.cpp_macro_p = true
        ∧ x = (n.NODE_NAME, .macro_obj (Macro.of_text n.cpp_macro_definition)) := by
  intro x hx
  unfold macro_callback at hx
  cases node with
  | none => exact Or.inl hx
  | some n =>
    simp only at hx
    split at hx
    · rename_i hmac
      split at hx
      · rcases Catalog.mem_set all _ _ x hx with h | h
        · exact Or.inr ⟨n, rfl, hmac, h⟩
        · exact Or.inl h
      · exact Or.inl hx
    · exact Or.inl hx

theorem collect_from_entries (g : Globals) (tc : TreeCodes) (events : List (Option TypeTree))
    (all : Catalog) :
    ∀ x ∈ events.foldl (finish_type_callback g tc) all, x ∈ all ∨
      ∃ t, some t ∈ events ∧ t.TYPE_NAME = some x.1 ∧
        ((t.code = tc.RECORD_TYPE ∧ (Struct.of_tree t).size ≠ SIZE_MAX
            ∧ x.2 = .struct_obj (Struct.of_tree t))
         ∨ x.2 = .enum_obj (Enum.of_tree tc t)) := by
  induction events generalizing all with
  | nil => intro x hx; exact Or.inl hx
  | cons ev events ih =>
    intro x hx
    rw [List.foldl_cons] at hx
    rcases ih _ x hx with h | ⟨t, ht, hrest⟩
    · rcases finish_type_callback_entries g tc all ev x h with h' | ⟨t, ht, hrest⟩
      · exact Or.inl h'
      · exact Or.inr ⟨t, ht ▸ List.mem_cons_self _ _, hrest⟩
    · exact Or.inr ⟨t, List.mem_cons_of_mem _ ht, hrest⟩

theorem macro_scan_entries (g : Globals) (nodes : List (Option CppNode)) (all : Catalog) :
    ∀ x ∈ macro_scan g all nodes, x ∈ all ∨
      ∃ n, some n ∈ nodes ∧ n.cpp_macro_p = true
        ∧ x = (n.NODE_NAME, .macro_obj (Macro.of_text n.cpp_macro_definition)) := by
  unfold macro_scan
  induction nodes generalizing all with
  | nil => intro x hx; exact Or.inl hx
  | cons node nodes ih =>
    intro x hx
    rw [List.foldl_cons] at hx
    rcases ih _ x hx with h | ⟨n, hn, hrest⟩
    · rcases macro_callback_entries g all node x h with h' | ⟨n, hn, hrest⟩
      · exact Or.inl h'
      · exact Or.inr ⟨n, hn ▸ List.mem_cons_self _ _, hrest⟩
    · exact Or.inr ⟨n, List.mem_cons_of_mem _ hn, hrest⟩

/-- Every entry of the catalog after a whole run was made from an event's
tree or from a node of the macro table. -/
theorem run_entries (g : Globals) (tc : TreeCodes) (events : List (Option TypeTree))
    (nodes : List (Option CppNode)) :
    ∀ x ∈ (finish_unit_callback g (collect g tc events) nodes).1,
      (∃ t, some t ∈ events ∧ t.TYPE_NAME = some x.1 ∧
        ((t.code = tc.RECORD_TYPE ∧ (Struct.of_tree t).size ≠ SIZE_MAX
            ∧ x.2 = .struct_obj (Struct.of_tree t))
         ∨ x.2 = .enum_obj (Enum.of_tree tc t)))
      ∨ ∃ n, some n ∈ nodes ∧ n.cpp_macro_p = true
          ∧ x = (n.NODE_NAME, .macro_obj (Macro.of_text n.cpp_macro_definition)) := by
  intro x hx
  rcases macro_scan_entries g nodes _ x hx with h | h
  · rcases collect_from_entries g tc events [] x h with h' | h'
    · simp at h'
    · exact Or.inl h'
  · exact Or.inr h

/-! ## Structs without a computable size -/

theorem to_size_t_ne_max (v : Int) (h0 : 0 ≤ v) (h1 : v < 9223372036854775808) :
    to_size_t v ≠ SIZE_MAX := by
  unfold to_size_t SIZE_MAX
  omega

/-- Claim C14. In the catalog after any events, with or without the end-of-unit
macro scan, no `Struct` record has the size `~0`. A declaration-finalized event
for a record type whose size the front-end cannot compute (`int_size_in_bytes`
is `-1`) leaves the catalog as it is; and when the name is wanted and was not
cataloged, a later event for a record type of the same name with a computable
size puts its record in the catalog under that name. -/
theorem unsizable_struct_not_cataloged (g : Globals) (tc : TreeCodes) :
    (∀ (events : List (Option TypeTree)) (nodes : List (Option CppNode)) (k : String)
        (s : Struct),
        (k, AbiChecked.struct_obj s) ∈ (finish_unit_callback g (collect g tc events) nodes).1
          → s.size ≠ SIZE_MAX)
    ∧ (∀ (events : List (Option TypeTree)) (k : String) (s : Struct),
        (k, AbiChecked.struct_obj s) ∈ collect g tc events → s.size ≠ SIZE_MAX)
    ∧ (∀ (all : Catalog) (t : TypeTree),
        t.code = tc.RECORD_TYPE → t.int_size_in_bytes = -1 →
          finish_type_callback g tc all (some t) = all)
    ∧ (∀ (all : Catalog) (t t' : TypeTree) (name : String),
        t.code = tc.RECORD_TYPE → t.int_size_in_bytes = -1 → t.TYPE_NAME = some name →
        is_wanted g name = true → all.count name = 0 →
        t'.code = tc.RECORD_TYPE → t'.TYPE_NAME = some name →
        0 ≤ t'.int_size_in_bytes → t'.int_size_in_bytes < 9223372036854775808 →
          finish_type_callback g tc (finish_type_callback g tc all (some t)) (some t')
              = all.set name (.struct_obj (Struct.of_tree t'))
          ∧ (finish_type_callback g tc (finish_type_callback g tc all (some t))
                (some t')).find name = some (.struct_obj (Struct.of_tree t'))) := by
  have hskip : ∀ (all : Catalog) (t : TypeTree),
      t.code = tc.RECORD_TYPE → t.int_size_in_bytes = -1 →
        finish_type_callback g tc all (some t) = all := by
    intro all t hcode hsize
    have hmax : (Struct.of_tree t).size = SIZE_MAX := by
      simp [Struct.of_tree, hsize, to_size_t_neg_one]
    cases hn : t.TYPE_NAME with
    | none => exact finish_type_callback_unnamed g tc all t hn
    | some name =>
      rw [finish_type_callback_named g tc all t name hn]
      simp [hcode, hmax]
  refine ⟨?_, ?_, hskip, ?_⟩
  · intro events nodes k s hmem
    rcases run_entries g tc events nodes _ hmem with ⟨t, -, -, h⟩ | ⟨n, -, -, h⟩
    · rcases h with ⟨-, hsize, hobj⟩ | hobj
      · simp only [AbiChecked.struct_obj.injEq] at hobj
        rw [hobj]; exact hsize
      · cases hobj
    · cases h
  · intro events k s hmem
    rcases collect_from_entries g tc events [] _ hmem with h | ⟨t, -, -, h⟩
    · simp at h
    · rcases h with ⟨-, hsize, hobj⟩ | hobj
      · simp only [AbiChecked.struct_obj.injEq] at hobj
        rw [hobj]; exact hsize
      · cases hobj
  · intro all t t' name hcode hsize _ hw habs hcode' hname' h0 h1
    rw [hskip all t hcode hsize]
    have hsz : (Struct.of_tree t').size ≠ SIZE_MAX := by
      simpa [Struct.of_tree] using to_size_t_ne_max _ h0 h1
    have heq : finish_type_callback g tc all (some t')
        = all.set name (.struct_obj (Struct.of_tree t')) := by
      rw [finish_type_callback_named g tc all t' name hname']
      simp [hw, habs, hcode', hsz]
    refine ⟨heq, ?_⟩
    rw [heq]
    clear heq habs
    induction all with
    | nil => simp [Catalog.set, Catalog.find]
    | cons kv rest ih =>
      obtain ⟨k', v'⟩ := kv
      unfold Catalog.set
      split
      · simp [Catalog.find]
      · split
        · simp [Catalog.find]
        · rename_i hne
          simp [Catalog.find, hne, ih]

/-- The struct `Foo` declared first without a computable size, then with size
16: the first event leaves the empty catalog empty, the second catalogs `Foo`;
and a run over both holds no struct of size `~0`. -/
theorem unsizable_struct_not_cataloged_witness :
    finish_type_callback scenario_globals example_codes [] (some unsized_foo_tree) = []
    ∧ finish_type_callback scenario_globals example_codes
        (finish_type_callback scenario_globals example_codes [] (some unsized_foo_tree))
        (some foo_tree) = [("Foo", .struct_obj scenario_foo)]
    ∧ scenario_foo.size ≠ SIZE_MAX :=
  ⟨(unsizable_struct_not_cataloged scenario_globals example_codes).2.2.1 []
      unsized_foo_tree rfl rfl,
   ((unsizable_struct_not_cataloged scenario_globals example_codes).2.2.2 []
      unsized_foo_tree foo_tree "Foo" rfl rfl rfl (by decide) (by decide) rfl rfl
      (by decide) (by decide)).1,
   (unsizable_struct_not_cataloged scenario_globals example_codes).2.1
      [some unsized_foo_tree, some foo_tree] "Foo" scenario_foo (by decide)⟩

/-! ## Names and keys -/

/-- Claim C19 as stated, refuted. With `FOO` whitelisted and the macro table
holding the function-like macro `#define FOO(x) ((x) << 2)`, whose definition
text is `FOO(x) ((x) << 2)`, the catalog stores under the key `FOO` a `Macro`
whose name is `FOO(x)`. -/
theorem name_key_counterexample :
    is_wanted scenario_globals "FOO" = true
    ∧ (finish_unit_callback scenario_globals (collect scenario_globals example_codes [])
          function_like_nodes).1
        = [("FOO", .macro_obj { name := "FOO(x)", value := "((x) << 2)" })]
    ∧ ∃ k v, (k, v) ∈ (finish_unit_callback scenario_globals
          (collect scenario_globals example_codes []) function_like_nodes).1
        ∧ v.name ≠ k := by
  refine ⟨by decide, by decide, "FOO", .macro_obj { name := "FOO(x)", value := "((x) << 2)" },
    by decide, by decide⟩

/-- Claim C19, amended. In the catalog after any events and any macro scan, a
`Struct` and an `Enum` bear as name the key they are stored under. A `Macro`
stored under a key was built from the definition text of a macro-table entry of
that name, and its name is that text up to its first space (empty when the text
has no space): it is the key when the text is the key, a space and a body, and
it is not the key otherwise, as for a function-like macro. -/
theorem cataloged_name_of_key (g : Globals) (tc : TreeCodes)
    (events : List (Option TypeTree)) (nodes : List (Option CppNode))
    (k : String) (v : AbiChecked)
    (hmem : (k, v) ∈ (finish_unit_callback g (collect g tc events) nodes).1) :
    match v with
    | .struct_obj s => s.name = k
    | .enum_obj e => e.name = k
    | .macro_obj m =>
        ∃ n, some n ∈ nodes ∧ n.NODE_NAME = k ∧ m = Macro.of_text n.cpp_macro_definition
          ∧ (' ' ∈ n.cpp_macro_definition.data →
              m.name.data = n.cpp_macro_definition.data.takeWhile (fun c => c != ' '))
          ∧ (' ' ∉ n.cpp_macro_definition.data → m.name = "")
          ∧ (∀ body : String, ' ' ∉ k.data →
              n.cpp_macro_definition = k ++ " " ++ body → m.name = k) := by
  rcases run_entries g tc events nodes _ hmem with ⟨t, -, hname, h⟩ | ⟨n, hn, -, h⟩
  · simp only at hname h
    rcases h with ⟨-, -, hobj⟩ | hobj
    · subst hobj
      simp [Struct.of_tree, IDENTIFIER_POINTER, hname]
    · subst hobj
      simp [Enum.of_tree, IDENTIFIER_POINTER, hname]
  · simp only [Prod.mk.injEq] at h
    obtain ⟨hk, hv⟩ := h
    subst hv
    refine ⟨n, hn, hk.symm, rfl, ?_, ?_, ?_⟩
    · intro hsp
      rw [Macro.of_text_of_space _ hsp]
    · intro hsp
      rw [Macro.of_text_of_no_space _ hsp]
    · intro body hks hdef
      have hdata : n.cpp_macro_definition.data = k.data ++ ' ' :: body.data := by
        rw [hdef]; simp [String.data_append]
      have hsp : ' ' ∈ n.cpp_macro_definition.data := by rw [hdata]; simp
      rw [Macro.of_text_of_space _ hsp, hdata, (takeWhile_append_space _ _ hks).1]

/-- A run with the struct `Foo`, the enum `Bar` and the object-like macro `FOO`
defined as `1+2`: the `Macro` stored under `FOO` bears the name `FOO`. -/
theorem cataloged_name_of_key_witness :
    ("FOO", AbiChecked.macro_obj { name := "FOO", value := "1+2" })
        ∈ (finish_unit_callback scenario_globals
            (collect scenario_globals example_codes [some foo_tree, some bar_tree])
            example_nodes).1
    ∧ ∃ n, some n ∈ example_nodes ∧ n.NODE_NAME = "FOO"
        ∧ ({ name := "FOO", value := "1+2" } : Macro) = Macro.of_text n.cpp_macro_definition
        ∧ (' ' ∈ n.cpp_macro_definition.data →
            ({ name := "FOO", value := "1+2" } : Macro).name.data
              = n.cpp_macro_definition.data.takeWhile (fun c => c != ' '))
        ∧ (' ' ∉ n.cpp_macro_definition.data →
            ({ name := "FOO", value := "1+2" } : Macro).name = "")
        ∧ (∀ body : String, ' ' ∉ "FOO".data →
            n.cpp_macro_definition = "FOO" ++ " " ++ body →
              ({ name := "FOO", value := "1+2" } : Macro).name = "FOO") :=
  ⟨by decide,
   cataloged_name_of_key scenario_globals example_codes [some foo_tree, some bar_tree]
     example_nodes "FOO" (.macro_obj { name := "FOO", value := "1+2" }) (by decide)⟩

/-! ## Enum extraction -/

/-- A remark on the second test of the constructor, written
`!TREE_CODE(...) == INTEGER_CST`: it compares 0 or 1 with `INTEGER_CST`. On a
value tree of another code, which the C front-end does not build for an
enumerator, it does not hold: in this made-up list `B`, whose value tree has
the code 35, is recorded, and only `C`, which has no value tree, is warned
about. -/
theorem non_integer_enumerator_is_recorded :
    (Enum.of_tree example_codes mixed_bar_tree).values = [("A", 1), ("B", 7)]
    ∧ (Enum.build example_codes mixed_bar_tree).err = ["WARNING: No value for field\n"]
    ∧ (Enum.of_tree example_codes mixed_bar_tree).values ≠ [("A", 1)]
    ∧ "WARNING: Field is not an integer\n" ∉ (Enum.build example_codes mixed_bar_tree).err := by
  decide

/-! ## The catalog is kept in key order -/

theorem Catalog.sorted_set (all : Catalog) (k : String) (v : AbiChecked)
    (h : all.Pairwise (fun a b => a.1.data < b.1.data)) :
    (all.set k v).Pairwise (fun a b => a.1.data < b.1.data) := by
  induction all with
  | nil => simp [Catalog.set]
  | cons kv rest ih =>
    obtain ⟨k', v'⟩ := kv
    rw [List.pairwise_cons] at h
    obtain ⟨hhead, htail⟩ := h
    unfold Catalog.set
    split
    · rename_i hlt
      refine List.Pairwise.cons ?_ (List.Pairwise.cons hhead htail)
      intro b hb
      rcases List.mem_cons.mp hb with rfl | hb
      · exact hlt
      · exact lt_trans hlt (hhead b hb)
    · split
      · rename_i heq
        subst heq
        exact List.Pairwise.cons hhead htail
      · rename_i hnlt hne
        refine List.Pairwise.cons ?_ (ih htail)
        intro b hb
        rcases Catalog.mem_set rest k v b hb with rfl | hb
        · rcases lt_trichotomy k.data k'.data with h | h | h
          · exact absurd h hnlt
          · exact absurd (String.ext h) hne
          · exact h
        · exact hhead b hb

theorem finish_type_callback_sorted (g : Globals) (tc : TreeCodes) (all : Catalog)
    (ev : Option TypeTree) (h : all.Pairwise (fun a b => a.1.data < b.1.data)) :
    (finish_type_callback g tc all ev).Pairwise (fun a b => a.1.data < b.1.data) := by
  cases ev with
  | none => exact h
  | some type =>
    cases hn : type.TYPE_NAME with
    | none => rw [finish_type_callback_unnamed g tc all type hn]; exact h
    | some type_name =>
      rw [finish_type_callback_named g tc all type type_name hn]
      split
      · split
        · split
          · exact h
          · exact Catalog.sorted_set all _ _ h
        · split
          · exact Catalog.sorted_set all _ _ h
          · exact h
      · exact h

theorem macro_callback_sorted (g : Globals) (all : Catalog) (node : Option CppNode)
    (h : all.Pairwise (fun a b => a.1.data < b.1.data)) :
    (macro_callback g all node).Pairwise (fun a b => a.1.data < b.1.data) := by
  unfold macro_callback
  cases node with
  | none => exact h
  | some n =>
    simp only
    split
    · split
      · exact Catalog.sorted_set all _ _ h
      · exact h
    · exact h

theorem collect_from_sorted (g : Globals) (tc : TreeCodes) (events : List (Option TypeTree))
    (all : Catalog) (h : all.Pairwise (fun a b => a.1.data < b.1.data)) :
    (events.foldl (finish_type_callback g tc) all).Pairwise
      (fun a b => a.1.data < b.1.data) := by
  induction events generalizing all with
  | nil => exact h
  | cons ev events ih => exact ih _ (finish_type_callback_sorted g tc all ev h)

theorem macro_scan_sorted (g : Globals) (nodes : List (Option CppNode)) (all : Catalog)
    (h : all.Pairwise (fun a b => a.1.data < b.1.data)) :
    (macro_scan g all nodes).Pairwise (fun a b => a.1.data < b.1.data) := by
  unfold macro_scan
  induction nodes generalizing all with
  | nil => exact h
  | cons n nodes ih => exact ih _ (macro_callback_sorted g all n h)

/-! ## What finalization writes -/

theorem print_all_file (g : Globals) (all : Catalog) (o : Out) :
    (print_all g all o).file
      = o.file ++ (all.map (fun kv => (kv.2.print g).file)).flatten := by
  unfold print_all
  induction all generalizing o with
  | nil => simp
  | cons kv all ih => simp [List.foldl_cons, ih, AbiChecked.print_from_file]

theorem print_all_err (g : Globals) (all : Catalog) (o : Out) :
    (print_all g all o).err
      = o.err ++ (all.map (fun kv => (kv.2.print g).err)).flatten := by
  unfold print_all
  induction all generalizing o with
  | nil => simp
  | cons kv all ih => simp [List.foldl_cons, ih, AbiChecked.print_from_err]

theorem missing_scan_from (all : Catalog) (ws : List String) (o : Out) :
    (ws.foldl
        (fun o w =>
          if all.find w = none then o.warn ("Missing wanted symbol " ++ w ++ "\n") else o) o)
      = { file := o.file
          err := o.err ++ (ws.filter (fun w => decide (all.find w = none))).map missing_msg } := by
  induction ws generalizing o with
  | nil => simp
  | cons w ws ih =>
    rw [List.foldl_cons, ih]
    by_cases h : all.find w = none
    · simp [h, List.filter_cons, missing_msg, Out.warn]
    · simp [h, List.filter_cons]

theorem finish_unit_callback_file (g : Globals) (all : Catalog)
    (nodes : List (Option CppNode)) :
    (finish_unit_callback g all nodes).2.file
      = ((macro_scan g all nodes).map (fun kv => (kv.2.print g).file)).flatten := by
  simp [finish_unit_callback, print_all_file, missing_scan, missing_scan_from]

theorem finish_unit_callback_err (g : Globals) (all : Catalog)
    (nodes : List (Option CppNode)) :
    (finish_unit_callback g all nodes).2.err
      = (g.wanted.filter
            (fun w => decide ((macro_scan g all nodes).find w = none))).map missing_msg
        ++ ((macro_scan g all nodes).map (fun kv => (kv.2.print g).err)).flatten := by
  simp [finish_unit_callback, print_all_err, missing_scan, missing_scan_from]

/-- Claim C11. After any events and any macro table, what the end-of-unit
callback writes to the output file (which then holds the preamble only) is, for
every entry of the catalog in turn, the block its `print` writes, one block per
entry; and the entries stand in strictly increasing lexicographic order of
their keys, the names they were cataloged under. -/
theorem output_in_key_order (g : Globals) (tc : TreeCodes)
    (events : List (Option TypeTree)) (nodes : List (Option CppNode)) :
    (finish_unit_callback g (collect g tc events) nodes).2.file
        = ((finish_unit_callback g (collect g tc events) nodes).1.map
            (fun kv => (kv.2.print g).file)).flatten
    ∧ (finish_unit_callback g (collect g tc events) nodes).1.Pairwise
        (fun a b => a.1.data < b.1.data) := by
  refine ⟨finish_unit_callback_file g _ nodes, ?_⟩
  exact macro_scan_sorted g nodes _ (collect_from_sorted g tc events [] List.Pairwise.nil)

/-- Two runs that catalog `Foo` and `Bar` in either order, with the macro `FOO`
in the table: the blocks come in the order `Bar`, `FOO`, `Foo`. -/
theorem output_in_key_order_witness :
    (finish_unit_callback scenario_globals
        (collect scenario_globals example_codes [some foo_tree, some bar_tree])
        example_nodes).1.keys = ["Bar", "FOO", "Foo"]
    ∧ (finish_unit_callback scenario_globals
        (collect scenario_globals example_codes [some bar_tree, some foo_tree])
        example_nodes).1.keys = ["Bar", "FOO", "Foo"]
    ∧ (finish_unit_callback scenario_globals
        (collect scenario_globals example_codes [some foo_tree, some bar_tree])
        example_nodes).2.file
        = ((finish_unit_callback scenario_globals
              (collect scenario_globals example_codes [some foo_tree, some bar_tree])
              example_nodes).1.map (fun kv => (kv.2.print scenario_globals).file)).flatten
    ∧ file_text (finish_unit_callback scenario_globals
        (collect scenario_globals example_codes [some foo_tree, some bar_tree])
        example_nodes).2.file
        = "\nABI_CHECK_ENUM_VAL_EQ(Bar, X, 1);\nABI_CHECK_ENUM_VAL_EQ(Bar, Y, 2);\n\n\n#define FOO 1+2\n\nABI_CHECK_SIZE_EQ(Foo, 16);\nABI_CHECK_FIELD(Foo, a, 0, 4);\nABI_CHECK_FIELD(Foo, b, 4, 4);\n\n" :=
  ⟨by decide, by decide,
   (output_in_key_order scenario_globals example_codes [some foo_tree, some bar_tree]
      example_nodes).1,
   by decide⟩

/-! ## Missing-symbol warnings -/

theorem missing_msg_injective : Function.Injective missing_msg := by
  intro a b h
  have hd := congrArg String.data h
  simp only [missing_msg, String.data_append] at hd
  have h1 := List.append_cancel_left hd
  have h2 := List.append_cancel_right h1
  have h3 := List.append_cancel_left h2
  exact String.ext h3

theorem Struct.field_warnings_ne_missing (s : Struct) (f : Field) (w : String) :
    missing_msg w ∉ s.field_warnings f := by
  unfold Struct.field_warnings
  split
  · intro hmem
    rw [List.mem_singleton] at hmem
    have hd := congrArg String.data hmem
    simp only [missing_msg, String.data_append] at hd
    have h1 := List.append_cancel_left hd
    simp at h1
  · simp

theorem AbiChecked.print_err_ne_missing (g : Globals) (a : AbiChecked) (w : String) :
    missing_msg w ∉ (a.print g).err := by
  cases a with
  | struct_obj s =>
    show missing_msg w ∉ (s.print g).err
    rw [Struct.print_err, List.mem_flatten]
    rintro ⟨l, hl, hw⟩
    obtain ⟨f, -, rfl⟩ := List.mem_map.mp hl
    exact Struct.field_warnings_ne_missing s f w hw
  | macro_obj m => simp [AbiChecked.print, AbiChecked.print_from, Macro.print_from]
  | enum_obj e =>
    show missing_msg w ∉ (e.print_from g ⟨[], []⟩).err
    rw [Enum.print_from_err_of_enum]
    simp

theorem Catalog.mem_of_find (all : Catalog) (k : String) (v : AbiChecked)
    (h : all.find k = some v) : (k, v) ∈ all := by
  induction all with
  | nil => simp [Catalog.find] at h
  | cons kv rest ih =>
    obtain ⟨k', v'⟩ := kv
    unfold Catalog.find at h
    split at h
    · rename_i heq
      simp only [Option.some.injEq] at h
      rw [heq, h]
      exact List.mem_cons_self _ _
    · exact List.mem_cons_of_mem _ (ih h)

/-- The number of missing-symbol warnings for `w` that the end-of-unit callback
writes. -/
theorem finish_unit_callback_missing_count (g : Globals) (all : Catalog)
    (nodes : List (Option CppNode)) (w : String) (hnd : g.wanted.Nodup) :
    (finish_unit_callback g all nodes).2.err.count (missing_msg w)
      = if w ∈ g.wanted ∧ (finish_unit_callback g all nodes).1.find w = none then 1 else 0 := by
  rw [finish_unit_callback_err]
  have hcat : (finish_unit_callback g all nodes).1 = macro_scan g all nodes := rfl
  rw [hcat, List.count_append]
  have hB : List.count (missing_msg w)
      ((macro_scan g all nodes).map (fun kv => (kv.2.print g).err)).flatten = 0 := by
    apply List.count_eq_zero_of_not_mem
    rw [List.mem_flatten]
    rintro ⟨l, hl, hw⟩
    obtain ⟨kv, -, rfl⟩ := List.mem_map.mp hl
    exact AbiChecked.print_err_ne_missing g kv.2 w hw
  rw [hB, Nat.add_zero, List.count_map_of_injective _ _ missing_msg_injective]
  by_cases hw : w ∈ g.wanted
  · by_cases hf : (macro_scan g all nodes).find w = none
    · rw [List.count_filter (by simpa using hf), List.count_eq_one_of_mem hnd hw]
      simp [hw, hf]
    · rw [List.count_eq_zero_of_not_mem (by simp [hf])]
      simp [hf]
  · rw [List.count_eq_zero_of_not_mem (by simp [hw])]
    simp [hw]

/-- Claim C13. Let the exact set hold each name once (it is a `std::set`).
Then the number of warnings `Missing wanted symbol w` that the end-of-unit
callback writes is 1 when `w` is in the exact set and is not a key of the
catalog after the macro scan, and 0 otherwise (so none for a cataloged name,
and none for a name outside the exact set, wanted through a prefix or not). In
particular it is 1 for a name of the exact set that is the name of no
declaration-finalized event and of no macro in the identifier table. Warnings for distinct
names are distinct. -/
theorem missing_symbol_detection (g : Globals) (tc : TreeCodes)
    (events : List (Option TypeTree)) (nodes : List (Option CppNode)) (w : String)
    (hnd : g.wanted.Nodup) :
    ((finish_unit_callback g (collect g tc events) nodes).2.err.count (missing_msg w)
        = if w ∈ g.wanted
              ∧ (finish_unit_callback g (collect g tc events) nodes).1.find w = none
          then 1 else 0)
    ∧ (w ∈ g.wanted → (∀ t, some t ∈ events → t.TYPE_NAME ≠ some w) →
        (∀ n, some n ∈ nodes → n.cpp_macro_p = true → n.NODE_NAME ≠ w) →
          (finish_unit_callback g (collect g tc events) nodes).2.err.count (missing_msg w) = 1)
    ∧ (w ∉ g.wanted →
          (finish_unit_callback g (collect g tc events) nodes).2.err.count (missing_msg w) = 0)
    ∧ (∀ w', missing_msg w' = missing_msg w → w' = w)
    ∧ missing_msg w = "WARNING: Missing wanted symbol " ++ w ++ "\n" := by
  have hcount := finish_unit_callback_missing_count g (collect g tc events) nodes w hnd
  refine ⟨hcount, ?_, ?_, fun w' h => missing_msg_injective h, ?_⟩
  · intro hw hev hno
    have habs : (finish_unit_callback g (collect g tc events) nodes).1.find w = none := by
      cases hf : (finish_unit_callback g (collect g tc events) nodes).1.find w with
      | none => rfl
      | some v =>
        exfalso
        have hmem := Catalog.mem_of_find _ _ _ hf
        rcases run_entries g tc events nodes _ hmem with ⟨t, ht, hname, -⟩ | ⟨n, hn, hmac, hx⟩
        · exact hev t ht hname
        · simp only [Prod.mk.injEq] at hx
          exact hno n hn hmac hx.1.symm
    rw [hcount]
    simp [hw, habs]
  · intro hw
    rw [hcount]
    simp [hw]
  · apply String.ext
    simp [missing_msg, String.data_append]

/-- A run that sees the struct `Foo` and the macro `FOO` but never `Bar`: one
warning for `Bar`, none for `Foo`. -/
theorem missing_symbol_detection_witness :
    (finish_unit_callback scenario_globals
        (collect scenario_globals example_codes [some foo_tree, some other_tree])
        example_nodes).2.err = ["WARNING: Missing wanted symbol Bar\n"]
    ∧ (finish_unit_callback scenario_globals
        (collect scenario_globals example_codes [some foo_tree, some other_tree])
        example_nodes).2.err.count (missing_msg "Bar") = 1
    ∧ (finish_unit_callback scenario_globals
        (collect scenario_globals example_codes [some foo_tree, some other_tree])
        example_nodes).2.err.count (missing_msg "Foo")
        = if "Foo" ∈ scenario_globals.wanted
              ∧ (finish_unit_callback scenario_globals
                  (collect scenario_globals example_codes [some foo_tree, some other_tree])
                  example_nodes).1.find "Foo" = none
          then 1 else 0 :=
  ⟨by decide,
   (missing_symbol_detection scenario_globals example_codes [some foo_tree, some other_tree]
      example_nodes "Bar" (by decide)).2.1 (by decide)
      (by
        intro t ht
        simp only [List.mem_cons, Option.some.injEq, List.mem_nil_iff, or_false] at ht
        rcases ht with rfl | rfl <;> decide)
      (by
        intro n hn hmac
        simp only [example_nodes, List.mem_cons, Option.some.injEq, List.mem_nil_iff,
          or_false] at hn
        rcases hn with rfl | rfl | rfl | rfl | hn
        · decide
        · decide
        · decide
        · exact absurd hmac (by decide)
        · cases hn),
   (missing_symbol_detection scenario_globals example_codes [some foo_tree, some other_tree]
      example_nodes "Foo" (by decide)).1⟩

/-! ## Determinism -/

theorem Catalog.find_set_self (all : Catalog) (k : String) (v : AbiChecked) :
    (all.set k v).find k = some v := by
  induction all with
  | nil => simp [Catalog.set, Catalog.find]
  | cons kv rest ih =>
    obtain ⟨k', v'⟩ := kv
    unfold Catalog.set
    split
    · simp [Catalog.find]
    · split
      · simp [Catalog.find]
      · rename_i hne
        simp [Catalog.find, hne, ih]

theorem Catalog.find_none_of_lt (all : Catalog) (k : String)
    (h : ∀ b ∈ all, k.data < b.1.data) : all.find k = none := by
  induction all with
  | nil => rfl
  | cons kv rest ih =>
    obtain ⟨k', v'⟩ := kv
    have hne : ¬ k = k' := by
      intro e
      have := h (k', v') (List.mem_cons_self _ _)
      rw [e] at this
      exact lt_irrefl _ this
    simp only [Catalog.find, hne, if_false]
    exact ih (fun b hb => h b (List.mem_cons_of_mem _ hb))

/-- Two catalogs in key order that store the same object under every key are
the same list. -/
theorem Catalog.ext_of_sorted (a b : Catalog)
    (ha : a.Pairwise (fun x y => x.1.data < y.1.data))
    (hb : b.Pairwise (fun x y => x.1.data < y.1.data))
    (h : ∀ k, a.find k = b.find k) : a = b := by
  induction a generalizing b with
  | nil =>
    cases b with
    | nil => rfl
    | cons kv b =>
      have := h kv.1
      simp [Catalog.find] at this
  | cons kv a ih =>
    obtain ⟨k, v⟩ := kv
    cases b with
    | nil =>
      have := h k
      simp [Catalog.find] at this
    | cons kv2 b =>
      obtain ⟨k2, v2⟩ := kv2
      rw [List.pairwise_cons] at ha hb
      have hk : k = k2 := by
        by_contra hne
        have hne2 : ¬ k2 = k := fun e => hne e.symm
        have h1 := h k
        simp only [Catalog.find, if_true, hne, if_false] at h1
        have h2 := h k2
        simp only [Catalog.find, if_true, hne2, if_false] at h2
        have m1 := hb.1 _ (Catalog.mem_of_find b k v h1.symm)
        have m2 := ha.1 _ (Catalog.mem_of_find a k2 v2 h2)
        exact lt_asymm m1 m2
      subst hk
      have hv : v = v2 := by
        have h1 := h k
        simpa [Catalog.find] using h1
      subst hv
      have htail : a = b := by
        apply ih b ha.2 hb.2
        intro x
        by_cases hx : x = k
        · subst hx
          rw [Catalog.find_none_of_lt a x ha.1, Catalog.find_none_of_lt b x hb.1]
        · have := h x
          simpa [Catalog.find, hx] using this
      rw [htail]

theorem Catalog.set_comm (all : Catalog) (k1 k2 : String) (v1 v2 : AbiChecked)
    (hs : all.Pairwise (fun x y => x.1.data < y.1.data)) (hne : k1 ≠ k2) :
    (all.set k1 v1).set k2 v2 = (all.set k2 v2).set k1 v1 := by
  apply Catalog.ext_of_sorted
  · exact Catalog.sorted_set _ _ _ (Catalog.sorted_set _ _ _ hs)
  · exact Catalog.sorted_set _ _ _ (Catalog.sorted_set _ _ _ hs)
  · intro x
    by_cases h2 : x = k2
    · subst h2
      rw [Catalog.find_set_self, Catalog.find_set_ne _ _ _ _ hne, Catalog.find_set_self]
    · have h2' : k2 ≠ x := fun e => h2 e.symm
      rw [Catalog.find_set_ne _ _ _ _ h2']
      by_cases h1 : x = k1
      · subst h1
        rw [Catalog.find_set_self, Catalog.find_set_self]
      · have h1' : k1 ≠ x := fun e => h1 e.symm
        rw [Catalog.find_set_ne _ _ _ _ h1', Catalog.find_set_ne _ _ _ _ h1',
          Catalog.find_set_ne _ _ _ _ h2']

theorem macro_callback_some (g : Globals) (all : Catalog) (n : CppNode) :
    macro_callback g all (some n)
      = if n.cpp_macro_p = true ∧ is_wanted g n.NODE_NAME = true ∧ all.count n.NODE_NAME = 0
        then all.set n.NODE_NAME (.macro_obj (Macro.of_text n.cpp_macro_definition))
        else all := by
  unfold macro_callback
  by_cases h1 : n.cpp_macro_p = true
  · by_cases h2 : is_wanted g n.NODE_NAME = true ∧ all.count n.NODE_NAME = 0
    · simp [h1, h2]
    · have h2' : ¬ (is_wanted g n.NODE_NAME = true ∧ all.count n.NODE_NAME = 0) := h2
      simp only [h1, h2, if_true, if_false, true_and]
  · simp [h1]

/-- The macro lambda called for two entries of different names leaves the same
catalog in either order. -/
theorem macro_callback_comm (g : Globals) (all : Catalog) (x y : Option CppNode)
    (hs : all.Pairwise (fun a b => a.1.data < b.1.data))
    (hxy : ∀ n m, x = some n → y = some m → n.NODE_NAME ≠ m.NODE_NAME) :
    macro_callback g (macro_callback g all x) y
      = macro_callback g (macro_callback g all y) x := by
  cases x with
  | none => rfl
  | some n =>
    cases y with
    | none => rfl
    | some m =>
      have hne : n.NODE_NAME ≠ m.NODE_NAME := hxy n m rfl rfl
      have hcn : ∀ v, (all.set m.NODE_NAME v).count n.NODE_NAME = all.count n.NODE_NAME :=
        fun v => Catalog.count_congr _ _ _ (Catalog.find_set_ne _ _ _ _ hne.symm)
      have hcm : ∀ v, (all.set n.NODE_NAME v).count m.NODE_NAME = all.count m.NODE_NAME :=
        fun v => Catalog.count_congr _ _ _ (Catalog.find_set_ne _ _ _ _ hne)
      rw [macro_callback_some g all n, macro_callback_some g all m]
      by_cases hn : n.cpp_macro_p = true ∧ is_wanted g n.NODE_NAME = true
          ∧ all.count n.NODE_NAME = 0
      · by_cases hm : m.cpp_macro_p = true ∧ is_wanted g m.NODE_NAME = true
            ∧ all.count m.NODE_NAME = 0
        · rw [if_pos hn, if_pos hm, macro_callback_some, macro_callback_some,
            if_pos ⟨hm.1, hm.2.1, (hcm _).trans hm.2.2⟩,
            if_pos ⟨hn.1, hn.2.1, (hcn _).trans hn.2.2⟩]
          exact Catalog.set_comm all _ _ _ _ hs hne
        · rw [if_pos hn, if_neg hm, macro_callback_some, macro_callback_some, if_pos hn]
          rw [if_neg]
          rintro ⟨h1, h2, h3⟩
          exact hm ⟨h1, h2, (hcm _).symm.trans h3⟩
      · by_cases hm : m.cpp_macro_p = true ∧ is_wanted g m.NODE_NAME = true
            ∧ all.count m.NODE_NAME = 0
        · rw [if_neg hn, if_pos hm, macro_callback_some, macro_callback_some, if_pos hm]
          rw [if_neg]
          rintro ⟨h1, h2, h3⟩
          exact hn ⟨h1, h2, (hcn _).symm.trans h3⟩
        · rw [if_neg hn, if_neg hm, macro_callback_some, macro_callback_some,
            if_neg hm, if_neg hn]

/-- A fold whose steps commute on the states that satisfy an invariant gives
the same result on a permutation of the list. -/
theorem foldl_perm_of_comm {σ α : Type} (f : σ → α → σ) (P : σ → Prop) (R : α → α → Prop)
    (hP : ∀ z a, P z → P (f z a))
    (hsymm : ∀ a b, R a b → R b a)
    (hcomm : ∀ a b, R a b → ∀ z, P z → f (f z a) b = f (f z b) a)
    (l₁ l₂ : List α) (hperm : l₁.Perm l₂) :
    l₁.Pairwise R → ∀ z, P z → l₁.foldl f z = l₂.foldl f z := by
  induction hperm with
  | nil => intro _ z _; rfl
  | cons a _ ih =>
    intro hpw z hz
    rw [List.pairwise_cons] at hpw
    exact ih hpw.2 _ (hP z a hz)
  | swap a b l =>
    intro hpw z hz
    rw [List.pairwise_cons] at hpw
    have hR : R b a := hpw.1 a (List.mem_cons_self _ _)
    simp only [List.foldl_cons]
    rw [hcomm b a hR z hz]
  | trans p1 _ ih1 ih2 =>
    intro hpw z hz
    have hpw2 := (List.Perm.pairwise_iff (fun {x y} h => hsymm x y h) p1).mp hpw
    rw [ih1 hpw z hz, ih2 hpw2 z hz]

/-- Claim C12. With the same configuration and the same events, and a macro
table whose entries bear pairwise distinct names, the end-of-unit callback
gives the same catalog and writes the same lines, character for character, in
whatever order the macro table is enumerated. -/
theorem finalization_deterministic (g : Globals) (tc : TreeCodes)
    (events : List (Option TypeTree)) (nodes nodes' : List (Option CppNode))
    (hperm : nodes'.Perm nodes)
    (hdist : nodes.Pairwise
      (fun x y => ∀ n m, x = some n → y = some m → n.NODE_NAME ≠ m.NODE_NAME)) :
    finish_unit_callback g (collect g tc events) nodes'
        = finish_unit_callback g (collect g tc events) nodes
    ∧ file_text (finish_unit_callback g (collect g tc events) nodes').2.file
        = file_text (finish_unit_callback g (collect g tc events) nodes).2.file := by
  have hsorted : (collect g tc events).Pairwise (fun a b => a.1.data < b.1.data) :=
    collect_from_sorted g tc events [] List.Pairwise.nil
  have hscan : macro_scan g (collect g tc events) nodes
      = macro_scan g (collect g tc events) nodes' := by
    unfold macro_scan
    exact foldl_perm_of_comm (macro_callback g)
      (fun z => z.Pairwise (fun a b => a.1.data < b.1.data))
      (fun x y => ∀ n m, x = some n → y = some m → n.NODE_NAME ≠ m.NODE_NAME)
      (fun z a hz => macro_callback_sorted g z a hz)
      (fun a b h n m hn hm => (h m n hm hn).symm)
      (fun a b h z hz => macro_callback_comm g z a b hz h)
      nodes nodes' hperm.symm hdist _ hsorted
  have hres : finish_unit_callback g (collect g tc events) nodes'
      = finish_unit_callback g (collect g tc events) nodes := by
    simp only [finish_unit_callback, hscan]
  exact ⟨hres, by rw [hres]⟩

/-- The example macro table enumerated forwards and backwards, after the
events for `Foo` and `Bar`. -/
theorem finalization_deterministic_witness :
    finish_unit_callback scenario_globals
        (collect scenario_globals example_codes [some foo_tree, some bar_tree])
        example_nodes.reverse
      = finish_unit_callback scenario_globals
        (collect scenario_globals example_codes [some foo_tree, some bar_tree])
        example_nodes :=
  (finalization_deterministic scenario_globals example_codes [some foo_tree, some bar_tree]
    example_nodes example_nodes.reverse (List.reverse_perm _)
    (by simp [example_nodes])).1

/-! ## What the `Enum` constructor records, for any enumerator list -/

/-- With `INTEGER_CST` neither 0 nor 1, as in the compiler's numbering, the
loop of the `Enum` constructor records every enumerator that has a value tree,
whatever the tree's code, and warns only for the enumerators without one. -/
theorem Enum.foldl_push_value (tc : TreeCodes) (h : 2 ≤ tc.INTEGER_CST)
    (vs : List Enumerator) (b : EnumBuild) :
    vs.foldl (Enum.push_value tc) b
      = { values := b.values
            ++ vs.filterMap (fun e => e.TREE_VALUE.map (fun v => (e.TREE_PURPOSE, to_long v.low)))
          err := b.err
            ++ (vs.filter (fun e => e.TREE_VALUE.isNone)).map
                (fun _ => "WARNING: No value for field\n") } := by
  induction vs generalizing b with
  | nil => simp
  | cons e vs ih =>
    rw [List.foldl_cons, ih]
    cases hv : e.TREE_VALUE with
    | none => simp [Enum.push_value, hv, List.filterMap_cons, List.filter_cons]
    | some v =>
      have hne : ¬ (if v.code = 0 then 1 else 0) = tc.INTEGER_CST := by
        split <;> omega
      simp [Enum.push_value, hv, hne, List.filterMap_cons, List.filter_cons]

/-! ## Macro text without a space -/

/-- Claim C15 as stated, refuted. With `FOO` in the exact set and a macro table
whose entry `FOO` has the definition text `FOO` (no space), the end-of-unit
callback stores under the key `FOO` a `Macro` (with empty name and value),
writes a `#define` line for it, and writes no missing-symbol warning for `FOO`
(it does for `Bar` and `Foo`, which were not seen). The same holds for the
macro with an empty body as the front-end spells it, `FOO` followed by a space:
it is cataloged with the name `FOO` and an empty value, and its line is
`#define FOO` followed by a space. -/
theorem macro_skip_counterexample :
    "FOO" ∈ scenario_globals.wanted
    ∧ ' ' ∉ "FOO".data
    ∧ (finish_unit_callback scenario_globals [] bare_nodes).1
        = [("FOO", .macro_obj { name := "", value := "" })]
    ∧ "FOO" ∈ (finish_unit_callback scenario_globals [] bare_nodes).1.keys
    ∧ (finish_unit_callback scenario_globals [] bare_nodes).2.file = [Line.define "" ""]
    ∧ file_text (finish_unit_callback scenario_globals [] bare_nodes).2.file = "#define  \n"
    ∧ (finish_unit_callback scenario_globals [] bare_nodes).2.err
        = [missing_msg "Bar", missing_msg "Foo"]
    ∧ missing_msg "FOO" ∉ (finish_unit_callback scenario_globals [] bare_nodes).2.err
    ∧ (finish_unit_callback scenario_globals [] empty_body_nodes).1
        = [("FOO", .macro_obj { name := "FOO", value := "" })]
    ∧ file_text (finish_unit_callback scenario_globals [] empty_body_nodes).2.file
        = "#define FOO \n"
    ∧ missing_msg "FOO" ∉ (finish_unit_callback scenario_globals [] empty_body_nodes).2.err := by
  decide

theorem Catalog.find_ne_none_of_mem (all : Catalog) (k : String) (v : AbiChecked)
    (h : (k, v) ∈ all) : all.find k ≠ none := by
  induction all with
  | nil => simp at h
  | cons kv rest ih =>
    obtain ⟨k', v'⟩ := kv
    by_cases hk : k = k'
    · simp [Catalog.find, hk]
    · rcases List.mem_cons.mp h with h' | h'
      · simp only [Prod.mk.injEq] at h'
        exact absurd h'.1 hk
      · simpa [Catalog.find, hk] using ih h'

theorem Catalog.count_ne_zero_iff (all : Catalog) (k : String) :
    all.count k ≠ 0 ↔ all.find k ≠ none := by
  unfold Catalog.count
  cases all.find k <;> simp

theorem macro_callback_present (g : Globals) (all : Catalog) (n : CppNode)
    (hmac : n.cpp_macro_p = true) (hw : is_wanted g n.NODE_NAME = true) :
    (macro_callback g all (some n)).count n.NODE_NAME ≠ 0 := by
  rw [macro_callback_some]
  by_cases hc : all.count n.NODE_NAME = 0
  · rw [if_pos ⟨hmac, hw, hc⟩, Catalog.count_ne_zero_iff, Catalog.find_set_self]
    simp
  · rw [if_neg (fun h => hc h.2.2)]
    exact hc

theorem macro_scan_present (g : Globals) (nodes : List (Option CppNode)) (all : Catalog)
    (n : CppNode) (hn : some n ∈ nodes) (hmac : n.cpp_macro_p = true)
    (hw : is_wanted g n.NODE_NAME = true) :
    (macro_scan g all nodes).count n.NODE_NAME ≠ 0 := by
  induction nodes generalizing all with
  | nil => simp at hn
  | cons x nodes ih =>
    have hstep : macro_scan g all (x :: nodes) = macro_scan g (macro_callback g all x) nodes :=
      rfl
    rw [hstep]
    rcases List.mem_cons.mp hn with h | h
    · subst h
      have hp := macro_callback_present g all n hmac hw
      rw [Catalog.count_congr _ _ _ (macro_scan_find g nodes _ n.NODE_NAME hp)]
      exact hp
    · exact ih _ h

/-- Claim C15, amended. A whitelisted macro of the macro table is cataloged
whether or not its definition text holds a space: after the end-of-unit
callback its name is a key of the catalog, no missing-symbol warning is written
for it, and the block of the entry stored under its name is in the output.
When no type of that name was cataloged before the scan, that entry is the
`Macro` built from the definition text of a macro of that name in the table, and
its block is the line `#define name value` with the name and value the
constructor parsed. -/
theorem whitelisted_macro_is_cataloged (g : Globals) (tc : TreeCodes)
    (events : List (Option TypeTree)) (nodes : List (Option CppNode)) (n : CppNode)
    (hn : some n ∈ nodes) (hmac : n.cpp_macro_p = true)
    (hw : is_wanted g n.NODE_NAME = true) :
    n.NODE_NAME ∈ (finish_unit_callback g (collect g tc events) nodes).1.keys
    ∧ missing_msg n.NODE_NAME ∉ (finish_unit_callback g (collect g tc events) nodes).2.err
    ∧ ∃ v, (finish_unit_callback g (collect g tc events) nodes).1.find n.NODE_NAME = some v
        ∧ (∀ line ∈ (v.print g).file,
            line ∈ (finish_unit_callback g (collect g tc events) nodes).2.file)
        ∧ ((collect g tc events).find n.NODE_NAME = none →
            ∃ n', some n' ∈ nodes ∧ n'.cpp_macro_p = true ∧ n'.NODE_NAME = n.NODE_NAME
              ∧ v = .macro_obj (Macro.of_text n'.cpp_macro_definition)
              ∧ Line.define (Macro.of_text n'.cpp_macro_definition).name
                  (Macro.of_text n'.cpp_macro_definition).value
                ∈ (finish_unit_callback g (collect g tc events) nodes).2.file) := by
  have hcat : (finish_unit_callback g (collect g tc events) nodes).1
      = macro_scan g (collect g tc events) nodes := rfl
  have hpres : (macro_scan g (collect g tc events) nodes).find n.NODE_NAME ≠ none :=
    (Catalog.count_ne_zero_iff _ _).mp (macro_scan_present g nodes _ n hn hmac hw)
  obtain ⟨v, hv⟩ := Option.ne_none_iff_exists'.mp hpres
  have hmem : (n.NODE_NAME, v) ∈ macro_scan g (collect g tc events) nodes :=
    Catalog.mem_of_find _ _ _ hv
  have hblock : ∀ line ∈ (v.print g).file,
      line ∈ (finish_unit_callback g (collect g tc events) nodes).2.file := by
    intro line hline
    rw [finish_unit_callback_file, List.mem_flatten]
    exact ⟨(v.print g).file,
      List.mem_map.mpr ⟨(n.NODE_NAME, v), hmem, rfl⟩, hline⟩
  refine ⟨?_, ?_, v, by rw [hcat]; exact hv, hblock, ?_⟩
  · rw [hcat]
    exact List.mem_map.mpr ⟨(n.NODE_NAME, v), hmem, rfl⟩
  · rw [finish_unit_callback_err, List.mem_append]
    rintro (h | h)
    · obtain ⟨w, hwf, hmsg⟩ := List.mem_map.mp h
      have hwn : w = n.NODE_NAME := missing_msg_injective hmsg
      subst hwn
      have := (List.mem_filter.mp hwf).2
      simp only [decide_eq_true_eq] at this
      exact hpres this
    · rw [List.mem_flatten] at h
      obtain ⟨l, hl, hmsg⟩ := h
      obtain ⟨kv, -, rfl⟩ := List.mem_map.mp hl
      exact AbiChecked.print_err_ne_missing g kv.2 _ hmsg
  · intro habs
    rcases macro_scan_entries g nodes _ _ hmem with h | ⟨n', hn', hmac', hx⟩
    · exact absurd habs (Catalog.find_ne_none_of_mem _ _ _ h)
    · simp only [Prod.mk.injEq] at hx
      refine ⟨n', hn', hmac', hx.1.symm, hx.2, ?_⟩
      apply hblock
      rw [hx.2]
      simp [AbiChecked.print, AbiChecked.print_from, Macro.print_from]

/-- The macro `FOO` with an empty body, whose definition text is `FOO` followed
by a space: `FOO` is a key of the catalog, its line is written, and no
missing-symbol warning names it. -/
theorem whitelisted_macro_is_cataloged_witness :
    "FOO" ∈ (finish_unit_callback scenario_globals (collect scenario_globals example_codes [])
        empty_body_nodes).1.keys
    ∧ missing_msg "FOO" ∉ (finish_unit_callback scenario_globals
        (collect scenario_globals example_codes []) empty_body_nodes).2.err
    ∧ (finish_unit_callback scenario_globals (collect scenario_globals example_codes [])
        empty_body_nodes).2.file = [Line.define "FOO" ""] :=
  ⟨(whitelisted_macro_is_cataloged scenario_globals example_codes [] empty_body_nodes
      ⟨"FOO", true, "FOO "⟩ (by decide) rfl (by decide)).1,
   (whitelisted_macro_is_cataloged scenario_globals example_codes [] empty_body_nodes
      ⟨"FOO", true, "FOO "⟩ (by decide) rfl (by decide)).2.1,
   by decide⟩

end GspAbi
